import Mathlib

/-!
Verification of the HTTP/2 stream multiplexing engine (frame reader,
stream store queues, prioritization / flow control, send coordinator).

The Rust sources embedded here are:
  * src/proto/framed_read.rs   (decode_frame)
  * src/proto/streams/store.rs (intrusive Queue push/pop)
  * src/proto/streams/stream.rs (per-stream record, Stream::assign_capacity)
  * src/proto/streams/prioritize.rs (queue_frame, send_data, try_assign_capacity,
    assign_connection_capacity, push_back_frame, clear_queue, pop_frame)
  * src/proto/streams/send.rs  (send_reset, helpers)

Machine integers: WindowSize is modelled as Int (the spec declares it a signed
32-bit quantity whose overflow is guarded by inc_window's MAX_WINDOW_SIZE
check); payload byte counts are Nat.  Fallible operations return Except, with
a dedicated error for the panicking paths of the source (unwrap on an empty
deque, unimplemented oversize handling, the assert in Queue::pop).
-/

/-- RFC 7540 error codes (error/Reason in the repository, declared outside the
given sources; only the constructors the embedded code mentions). -/
inductive Reason where
  | NoError
  | ProtocolError
  | FlowControlError
  | Cancel
deriving DecidableEq, Repr

/-- MAX_WINDOW_SIZE = 2^31 - 1. -/
def MAX_WINDOW_SIZE : Int := 2 ^ 31 - 1

/-- Modelled from the spec: flow_control.rs is not among the given sources.
Spec section 3: a FlowControl tracks window_size (signed, may go negative) and
available (non-negative, at most max(window_size, 0)). -/
structure FlowControl where
  window_size : Int
  available : Int
deriving DecidableEq, Repr

/-- Modelled from the spec: inc_window fails with FLOW_CONTROL_ERROR when the
window would exceed MAX_WINDOW_SIZE. -/
def FlowControl.inc_window (f : FlowControl) (delta : Int) : Except Reason FlowControl :=
  if f.window_size + delta > MAX_WINDOW_SIZE then .error .FlowControlError
  else .ok { f with window_size := f.window_size + delta }

/-- Modelled from the spec: dec_window may push the window negative. -/
def FlowControl.dec_window (f : FlowControl) (delta : Int) : FlowControl :=
  { f with window_size := f.window_size - delta }

/-- Modelled from the spec: assign_capacity grows the available portion. -/
def FlowControl.assign_capacity (f : FlowControl) (n : Int) : FlowControl :=
  { f with available := f.available + n }

/-- Modelled from the spec: claim_capacity removes previously assigned
capacity (callers guarantee n is at most available). -/
def FlowControl.claim_capacity (f : FlowControl) (n : Int) : FlowControl :=
  { f with available := f.available - n }

/-- Modelled from the spec: send_data consumes n bytes of the window.  The
spec's operation list gives window_size -= n; its FlowControl invariant
(available is at most max(window_size, 0)) and the capacity accounting of the
pop_frame step in section 4.3 (capacity borrowed into a stream is spent on the
wire) force the sent bytes to be consumed from available as well, which is how
the upstream flow controller behaves. -/
def FlowControl.send_data (f : FlowControl) (n : Int) : FlowControl :=
  { window_size := f.window_size - n, available := f.available - n }

/-- Modelled from the spec: has_unavailable is true iff there is window
headroom not yet marked available. -/
def FlowControl.has_unavailable (f : FlowControl) : Bool :=
  f.window_size > f.available

/-- Modelled from the spec: state.rs is not among the given sources.  Spec
section 4.5 lists the RFC 7540 stream states with the send-path transitions. -/
inductive StreamState where
  | Idle
  | ReservedLocal
  | ReservedRemote
  | Open
  | HalfClosedLocal
  | HalfClosedRemote
  | Closed
  | Reset (reason : Reason)
deriving DecidableEq, Repr

/-- Modelled from the spec: is_send_streaming is true for Open and
HalfClosedRemote. -/
def StreamState.is_send_streaming : StreamState → Bool
  | .Open => true
  | .HalfClosedRemote => true
  | _ => false

/-- Modelled from the spec: is_closed is true for Closed and Reset. -/
def StreamState.is_closed : StreamState → Bool
  | .Closed => true
  | .Reset _ => true
  | _ => false

/-- Modelled from the spec: is_reset is true for Reset. -/
def StreamState.is_reset : StreamState → Bool
  | .Reset _ => true
  | _ => false

/-- Modelled from the spec: send_open on Idle moves to Open, or directly to
HalfClosedLocal when the frame ends the stream; ReservedLocal moves to
HalfClosedRemote; anything else is UnexpectedFrameType. -/
def StreamState.send_open (s : StreamState) (end_stream : Bool) : Except Unit StreamState :=
  match s with
  | .Idle => .ok (if end_stream then .HalfClosedLocal else .Open)
  | .ReservedLocal => .ok .HalfClosedRemote
  | _ => .error ()

/-- Modelled from the spec: send_close moves Open to HalfClosedLocal and
HalfClosedRemote to Closed; anything else errors. -/
def StreamState.send_close (s : StreamState) : Except Unit StreamState :=
  match s with
  | .Open => .ok .HalfClosedLocal
  | .HalfClosedRemote => .ok .Closed
  | _ => .error ()

/-- Modelled from the spec: set_reset moves any state to Reset (the caller,
send_reset, screens the Closed-with-flushed-queue case before calling it). -/
def StreamState.set_reset (_s : StreamState) (reason : Reason) : StreamState :=
  .Reset reason

/- ===== Frame reader (src/proto/framed_read.rs, decode_frame) ===== -/

/-- Frame kinds as classified by frame::Head::parse (the frame module is
outside the given sources; the kind tag is all decode_frame dispatches on). -/
inductive FKind where
  | Data
  | Headers
  | Priority
  | Reset
  | Settings
  | PushPromise
  | Ping
  | GoAway
  | WindowUpdate
  | Continuation
  | Unknown
deriving DecidableEq, Repr

/-- Errors surfaced by the frame-type load functions that decode_frame
distinguishes (frame::Error in the frame module). -/
inductive LoadErr where
  | InvalidDependencyId
  | MalformedMessage
  | Other
deriving DecidableEq, Repr

/-- One length-delimited input frame as seen by decode_frame.  Modelled from
the spec: the frame module's load functions are outside the given sources, so
their outcome on this frame's bytes is carried as a field (loadResult for
frame::X::load, hpackResult for Headers::load_hpack on the completed block);
head fields (kind, stream id, the END_HEADERS bit of the flags) and the
payload bytes after the 9-byte header are explicit. -/
structure InputFrame where
  kind : FKind
  streamId : Nat
  endHeaders : Bool
  loadResult : Option LoadErr
  hpackResult : Option LoadErr
  payload : List Nat
deriving DecidableEq, Repr

/-- The reader's Partial slot: the stream id of the in-progress HEADERS frame
and the accumulated header-block bytes. -/
structure InProgress where
  streamId : Nat
  buf : List Nat
deriving DecidableEq, Repr

/-- Error type of decode_frame: connection-level or stream-level. -/
inductive ProtoErr where
  | Connection (r : Reason)
  | StreamE (id : Nat) (r : Reason)
deriving DecidableEq, Repr

/-- A decoded frame yielded to the caller (kind, stream id, payload bytes;
for HEADERS the payload is the complete HPACK block that was decoded). -/
structure DFrame where
  kind : FKind
  streamId : Nat
  block : List Nat
deriving DecidableEq, Repr

/-- FramedRead::decode_frame.  Takes the current Partial slot and one input
frame; returns the result together with the new Partial slot (the Rust method
mutates self.partial in place, including the take() in the CONTINUATION arm
which leaves the slot empty on every path that does not restore it). -/
def decodeFrame (ps : Option InProgress) (f : InputFrame) :
    Except ProtoErr (Option DFrame) × Option InProgress :=
  if ps.isSome ∧ f.kind ≠ .Continuation then
    (.error (.Connection .ProtocolError), ps)
  else
    match f.kind with
    | .Settings | .Ping | .WindowUpdate | .Data | .Reset | .GoAway | .PushPromise =>
      match f.loadResult with
      | some _ => (.error (.Connection .ProtocolError), ps)
      | none => (.ok (some ⟨f.kind, f.streamId, f.payload⟩), ps)
    | .Headers =>
      match f.loadResult with
      | some .InvalidDependencyId => (.error (.StreamE f.streamId .ProtocolError), ps)
      | some _ => (.error (.Connection .ProtocolError), ps)
      | none =>
        if f.endHeaders then
          match f.hpackResult with
          | some .MalformedMessage => (.error (.StreamE f.streamId .ProtocolError), ps)
          | some _ => (.error (.Connection .ProtocolError), ps)
          | none => (.ok (some ⟨.Headers, f.streamId, f.payload⟩), ps)
        else
          (.ok none, some ⟨f.streamId, f.payload⟩)
    | .Priority =>
      if f.streamId = 0 then (.error (.Connection .ProtocolError), ps)
      else
        match f.loadResult with
        | none => (.ok (some ⟨.Priority, f.streamId, f.payload⟩), ps)
        | some .InvalidDependencyId => (.error (.StreamE f.streamId .ProtocolError), ps)
        | some _ => (.error (.Connection .ProtocolError), ps)
    | .Continuation =>
      match ps with
      | none => (.error (.Connection .ProtocolError), none)
      | some p =>
        let p := { p with buf := p.buf ++ f.payload }
        if ¬ f.endHeaders then
          (.ok none, some p)
        else if p.streamId ≠ f.streamId then
          (.error (.Connection .ProtocolError), none)
        else
          match f.hpackResult with
          | some .MalformedMessage => (.error (.StreamE f.streamId .ProtocolError), none)
          | some _ => (.error (.Connection .ProtocolError), none)
          | none => (.ok (some ⟨.Headers, p.streamId, p.buf⟩), none)
    | .Unknown => (.ok none, ps)

/- ===== Stream store intrusive queues (src/proto/streams/store.rs) ===== -/

/-- The per-stream fields one Next family exposes (a next-key and an is-queued
flag); store.rs's Queue is generic over which family it uses, so one node type
models any of the four families. -/
structure QNode where
  next : Option Nat
  queued : Bool
deriving DecidableEq, Repr

/-- The slab, seen through keys.  Queue operations only ever touch the keys
they are handed, so a total map from keys to nodes is enough. -/
def QStore := Nat → QNode

/-- Write one slab entry. -/
def updQ (s : QStore) (k : Nat) (n : QNode) : QStore :=
  fun i => if i = k then n else s i

/-- Queue::indices: head and tail keys of the linked list, None when empty. -/
structure IQueue where
  indices : Option (Nat × Nat)
deriving DecidableEq, Repr

/-- Queue::push: no-op returning false when the is-queued flag is set;
otherwise set the flag, link the old tail to the new key (or create a
singleton list) and return true. -/
def IQueue.push (q : IQueue) (s : QStore) (k : Nat) : Bool × IQueue × QStore :=
  if (s k).queued then
    (false, q, s)
  else
    let s1 := updQ s k { s k with queued := true }
    match q.indices with
    | some (h, t) =>
      let s2 := updQ s1 t { s1 t with next := some k }
      (true, ⟨some (h, k)⟩, s2)
    | none =>
      (true, ⟨some (k, k)⟩, s1)

/-- Queue::pop: remove and return the head, clearing its flag; when head and
tail coincide the source asserts the node's next-link is empty, and otherwise
unwraps take_next; either panic is modelled as an error. -/
def IQueue.pop (q : IQueue) (s : QStore) : Except Unit (Option Nat × IQueue × QStore) :=
  match q.indices with
  | none => .ok (none, q, s)
  | some (h, t) =>
    if h = t then
      if (s h).next ≠ none then .error ()
      else
        .ok (some h, ⟨none⟩, updQ s h { s h with queued := false })
    else
      match (s h).next with
      | none => .error ()
      | some h2 =>
        .ok (some h, ⟨some (h2, t)⟩, updQ s h { next := none, queued := false })

/-- The next-links realize the list l: each element points at its successor
and the last element has no successor. -/
def links (s : QStore) : List Nat → Prop
  | [] => True
  | [k] => (s k).next = none
  | k :: k2 :: rest => (s k).next = some k2 ∧ links s (k2 :: rest)

/-- Representation invariant of one intrusive queue: l is its contents in
order.  Distinct keys; the is-queued flag holds exactly on members; the links
realize l; head/tail indices match l; keys outside the queue carry no
next-link (which is what Queue::push's debug_assert records). -/
def QInv (q : IQueue) (s : QStore) (l : List Nat) : Prop :=
  l.Nodup ∧
  (∀ k, (s k).queued = true ↔ k ∈ l) ∧
  links s l ∧
  (∀ k, k ∉ l → (s k).next = none) ∧
  (match l with
   | [] => q.indices = none
   | k :: rest => q.indices = some (k, (k :: rest).getLast (List.cons_ne_nil k rest)))

/-- One step of following a next-link, fuel-bounded. -/
def reachN (s : QStore) : Nat → Nat → Nat → Prop
  | 0, _, _ => False
  | fuel + 1, c, k => c = k ∨ ∃ c2, (s c).next = some c2 ∧ reachN s fuel c2 k

/-- k is reachable from the queue's head by following next-links. -/
def ReachesQ (q : IQueue) (s : QStore) (k : Nat) : Prop :=
  ∃ h t fuel, q.indices = some (h, t) ∧ reachN s fuel h k

/- ===== Prioritization engine (prioritize.rs, send.rs, stream.rs) ===== -/

/-- An outbound frame held in a stream's pending_send deque.  DATA carries its
payload byte count and END_STREAM flag; HEADERS (also used for trailers)
carries END_STREAM; RST_STREAM carries its reason.  Stream ids and header
contents are never read by the embedded operations and are omitted. -/
inductive HFrame where
  | Data (sz : Nat) (eos : Bool)
  | Headers (eos : Bool)
  | Reset (r : Reason)
deriving DecidableEq, Repr

/-- The send-side fields of the Stream record (stream.rs); the receive-side
fields are independent of the embedded send-path operations and are omitted. -/
structure HStream where
  state : StreamState
  send_flow : FlowControl
  requested_send_capacity : Int
  buffered_send_data : Int
  pending_send : List HFrame
  is_pending_send : Bool
  is_pending_send_capacity : Bool
  send_capacity_inc : Bool
deriving DecidableEq, Repr

/-- A fresh slab slot (only used when an operation is handed a key outside the
slab, which the callers never do). -/
def HStream.empty : HStream :=
  { state := .Idle, send_flow := ⟨0, 0⟩, requested_send_capacity := 0,
    buffered_send_data := 0, pending_send := [], is_pending_send := false,
    is_pending_send_capacity := false, send_capacity_inc := false }

/-- The engine: the store's slab of streams (keys are list indices) and the
Prioritize fields.  The two scheduling queues are carried as their contents
lists, with the per-stream is-queued flags maintained exactly as store.rs's
Queue::push / Queue::pop do (push appends at the tail only when the flag is
clear and sets it; pop takes the head and clears it); the C8 section proves
this list view is what the intrusive next-link representation realizes. -/
structure Engine where
  streams : List HStream
  pending_send : List Nat
  pending_capacity : List Nat
  flow : FlowControl
deriving DecidableEq, Repr

/-- Read a stream record by key. -/
def getS (e : Engine) (k : Nat) : HStream :=
  e.streams.getD k HStream.empty

/-- Replace a stream record by key. -/
def setS (e : Engine) (k : Nat) (s : HStream) : Engine :=
  { e with streams := e.streams.set k s }

/-- Queue::push on Prioritize.pending_send (list view, flag semantics of
store.rs). -/
def pushPendingSend (e : Engine) (k : Nat) : Engine :=
  let s := getS e k
  if s.is_pending_send then e
  else
    { setS e k { s with is_pending_send := true } with
      pending_send := e.pending_send ++ [k] }

/-- Queue::push on Prioritize.pending_capacity. -/
def pushPendingCapacity (e : Engine) (k : Nat) : Engine :=
  let s := getS e k
  if s.is_pending_send_capacity then e
  else
    { setS e k { s with is_pending_send_capacity := true } with
      pending_capacity := e.pending_capacity ++ [k] }

/-- Queue::pop on Prioritize.pending_send. -/
def popPendingSend (e : Engine) : Option (Nat × Engine) :=
  match e.pending_send with
  | [] => none
  | k :: rest =>
    some (k, { setS e k { getS e k with is_pending_send := false } with
               pending_send := rest })

/-- Queue::pop on Prioritize.pending_capacity. -/
def popPendingCapacity (e : Engine) : Option (Nat × Engine) :=
  match e.pending_capacity with
  | [] => none
  | k :: rest =>
    some (k, { setS e k { getS e k with is_pending_send_capacity := false } with
               pending_capacity := rest })

/-- Stream::assign_capacity (stream.rs): set the capacity-increased flag and
grow the stream's send flow (the task notification has no modelled state). -/
def HStream.assign_capacity (s : HStream) (capacity : Int) : HStream :=
  { s with send_capacity_inc := true,
           send_flow := s.send_flow.assign_capacity capacity }

/-- Prioritize::try_assign_capacity.  additional is clipped to the stream's
window; when the connection has available capacity the minimum of the two is
moved from the connection to the stream; a still-short stream with window
headroom queues for connection capacity; a stream with buffered data is
scheduled in pending_send. -/
def tryAssignCapacity (e : Engine) (k : Nat) : Engine :=
  let s := getS e k
  let total_requested := s.requested_send_capacity
  let additional := min (total_requested - s.send_flow.available)
                        s.send_flow.window_size
  if additional = 0 then e
  else
    let conn_available := e.flow.available
    let e :=
      if conn_available > 0 then
        let assign := min conn_available additional
        let e := setS e k ((getS e k).assign_capacity assign)
        { e with flow := e.flow.claim_capacity assign }
      else e
    let s := getS e k
    let e :=
      if s.send_flow.available < s.requested_send_capacity ∧
         s.send_flow.has_unavailable then
        pushPendingCapacity e k
      else e
    let s := getS e k
    if s.buffered_send_data > 0 then pushPendingSend e k else e

/-- Prioritize::queue_frame: append the frame to the stream's deque and
schedule the stream (connection-task notification has no modelled state). -/
def queueFrame (f : HFrame) (k : Nat) (e : Engine) : Engine :=
  let s := getS e k
  let e := setS e k { s with pending_send := s.pending_send ++ [f] }
  pushPendingSend e k

/-- Prioritize::push_back_frame: return the frame to the front of the
stream's deque, rescheduling the stream when it still has capacity. -/
def pushBackFrame (f : HFrame) (k : Nat) (e : Engine) : Engine :=
  let s := getS e k
  let e := setS e k { s with pending_send := f :: s.pending_send }
  if (getS e k).send_flow.available > 0 then pushPendingSend e k else e

/-- Prioritize::clear_queue: drain and discard the stream's deque. -/
def clearQueue (k : Nat) (e : Engine) : Engine :=
  let s := getS e k
  setS e k { s with pending_send := [] }

/-- The loop of Prioritize::assign_connection_capacity: while the connection
has available capacity, pop a stream waiting for capacity and re-run
try_assign_capacity on it.  The fuel argument bounds the iteration count; the
callers pass one more than the queue length, which suffices because an
iteration that re-queues its stream leaves the connection with no available
capacity (try_assign_capacity re-queues only after claiming everything). -/
def assignLoop : Nat → Engine → Engine
  | 0, e => e
  | fuel + 1, e =>
    if e.flow.available > 0 then
      match popPendingCapacity e with
      | none => e
      | some (k, e2) => assignLoop fuel (tryAssignCapacity e2 k)
    else e

/-- Prioritize::assign_connection_capacity: grow the connection flow, then
redistribute to streams pending capacity. -/
def assignConnectionCapacity (inc : Int) (e : Engine) : Engine :=
  let e := { e with flow := e.flow.assign_capacity inc }
  assignLoop (e.pending_capacity.length + 1) e

/-- User-facing errors of the send path (error::User plus the panicking
unimplemented branch of Prioritize::send_data). -/
inductive SendErr where
  | inactiveStreamId
  | unexpectedFrameType
  | unimplementedOverflow
  | stateError
deriving DecidableEq, Repr

/-- Prioritize::send_data.  The Rust method mutates the stream through a
store pointer and returns Result, so the model returns the engine alongside
the Except value: mutations made before an early return persist. -/
def sendData (e : Engine) (k : Nat) (sz : Nat) (eos : Bool) :
    Except SendErr Unit × Engine :=
  if (sz : Int) > MAX_WINDOW_SIZE then
    (.error .unimplementedOverflow, e)
  else
    let s := getS e k
    if ¬ s.state.is_send_streaming then
      if s.state.is_closed then (.error .inactiveStreamId, e)
      else (.error .unexpectedFrameType, e)
    else
      let s := { s with buffered_send_data := s.buffered_send_data + sz }
      let e := setS e k s
      let e :=
        if s.requested_send_capacity < s.buffered_send_data then
          tryAssignCapacity
            (setS e k { s with requested_send_capacity := s.buffered_send_data }) k
        else e
      let stClose : Except Unit StreamState :=
        if eos then (getS e k).state.send_close else .ok (getS e k).state
      match stClose with
      | .error _ => (.error .stateError, e)
      | .ok st2 =>
        let s := { getS e k with state := st2 }
        let e := setS e k s
        if s.send_flow.available ≥ s.buffered_send_data then
          (.ok (), queueFrame (.Data sz eos) k e)
        else
          (.ok (), setS e k { s with pending_send := s.pending_send ++ [.Data sz eos] })

/-- Send::send_reset: no-op when already reset, or when closed with a flushed
deque; otherwise transition to Reset, drop all pending frames, reclaim the
stream's assigned capacity, enqueue RST_STREAM and hand the reclaimed
capacity back to the connection. -/
def sendReset (r : Reason) (k : Nat) (e : Engine) : Engine :=
  let s := getS e k
  if s.state.is_reset then e
  else if s.state.is_closed ∧ s.pending_send.isEmpty then e
  else
    let e := setS e k { s with state := s.state.set_reset r }
    let e := clearQueue k e
    let available := (getS e k).send_flow.available
    let e := setS e k { getS e k with
                        send_flow := (getS e k).send_flow.claim_capacity available }
    let e := queueFrame (.Reset r) k e
    assignConnectionCapacity available e

/-- Frame<Prioritized<B>> for a DATA frame handed to the codec: the full
buffer wrapped in Take(len), the (possibly cleared) END_STREAM flag, the
remembered end_of_stream marker and the originating stream key. -/
structure PFrame where
  sz : Nat
  take : Nat
  end_stream : Bool
  eos : Bool
  key : Nat
deriving DecidableEq, Repr

/-- A frame as returned by pop_frame. -/
inductive OutFrame where
  | Data (p : PFrame)
  | Headers (eos : Bool)
  | Reset (r : Reason)
deriving DecidableEq, Repr

/-- Panics of pop_frame: the unwrap of pop_front on the popped stream's
deque. -/
inductive PanicErr where
  | unwrapNone
deriving DecidableEq, Repr

/-- The loop body of Prioritize::pop_frame, fuel-bounded by the scheduling
queue length (each iteration pops one stream from pending_send and the
continue branch never re-queues, so the queue shrinks every iteration). -/
def popFrameLoop (maxLen : Nat) : Nat → Engine → Except PanicErr (Option OutFrame × Engine)
  | 0, e => .ok (none, e)
  | fuel + 1, e =>
    match popPendingSend e with
    | none => .ok (none, e)
    | some (k, e) =>
      let s := getS e k
      match s.pending_send with
      | [] => .error .unwrapNone
      | f :: dq =>
        let s := { s with pending_send := dq }
        match f with
        | .Data sz fEos =>
          let stream_capacity := s.send_flow.available
          if sz > 0 ∧ stream_capacity = 0 then
            popFrameLoop maxLen fuel (setS e k { s with pending_send := f :: dq })
          else
            let len := min sz maxLen
            let len := min len stream_capacity.toNat
            let s := { s with send_flow := s.send_flow.send_data len }
            let e := { e with flow := (e.flow.assign_capacity len).send_data len }
            let out := OutFrame.Data
              { sz := sz, take := len,
                end_stream := if sz > len then false else fEos,
                eos := fEos, key := k }
            let e := setS e k s
            let e := if s.pending_send.isEmpty then e else pushPendingSend e k
            .ok (some out, e)
        | .Headers hEos =>
          let e := setS e k s
          let e := if s.pending_send.isEmpty then e else pushPendingSend e k
          .ok (some (.Headers hEos), e)
        | .Reset rr =>
          let e := setS e k s
          let e := if s.pending_send.isEmpty then e else pushPendingSend e k
          .ok (some (.Reset rr), e)

/-- Prioritize::pop_frame. -/
def popFrame (maxLen : Nat) (e : Engine) : Except PanicErr (Option OutFrame × Engine) :=
  popFrameLoop maxLen e.pending_send.length e

/-- Prioritize::recv_stream_window_update: grow the stream-level send window
(propagating the FLOW_CONTROL_ERROR of inc_window), then re-run
try_assign_capacity on the stream. -/
def recvStreamWindowUpdate (inc : Int) (k : Nat) (e : Engine) :
    Except Reason Engine :=
  match (getS e k).send_flow.inc_window inc with
  | .error r => .error r
  | .ok f2 =>
    let e := setS e k { getS e k with send_flow := f2 }
    .ok (tryAssignCapacity e k)

/-- Prioritize::new: the connection send flow starts with the configured
initial window opened (inc_window) and fully assigned (assign_capacity); no
streams, empty queues.  The expect on an invalid initial window is the error
case. -/
def initEngine (w : Int) : Except Reason Engine :=
  match (FlowControl.mk 0 0).inc_window w with
  | .error r => .error r
  | .ok f =>
    .ok { streams := [], pending_send := [], pending_capacity := [],
          flow := f.assign_capacity w }

/- ===== Invariants and concrete states used by the claims ===== -/

/-- Total stream-level available send capacity across the store. -/
def sumAvail (e : Engine) : Int :=
  (e.streams.map fun s => s.send_flow.available).sum

/-- The connection-level capacity bound: the capacity assigned out to streams
plus the connection's own available capacity never exceeds the connection
window. -/
def FlowInv (e : Engine) : Prop :=
  sumAvail e + e.flow.available ≤ e.flow.window_size

/-- Scheduling discipline of pending_send: distinct keys, every queued key is
a live slab entry whose is-queued flag is set and whose frame deque is
non-empty. -/
def SchedInv (e : Engine) : Prop :=
  e.pending_send.Nodup ∧
  ∀ k ∈ e.pending_send,
    k < e.streams.length ∧ (getS e k).is_pending_send = true ∧
    (getS e k).pending_send ≠ []

/-- Scheduling discipline relaxed at one key x: inside send_data the stream
being written may be scheduled by try_assign_capacity momentarily before its
frame is appended to the deque; every other queued stream already has a
buffered frame. -/
def SchedInvX (x : Nat) (e : Engine) : Prop :=
  e.pending_send.Nodup ∧
  ∀ k ∈ e.pending_send,
    k < e.streams.length ∧ (getS e k).is_pending_send = true ∧
    (k ≠ x → (getS e k).pending_send ≠ [])

/-- Number of RST_STREAM frames in a deque. -/
def countResets (l : List HFrame) : Nat :=
  (l.filter fun f => match f with | .Reset _ => true | _ => false).length

/-- e' agrees with e on every stream's protocol state and frame deque (the
capacity-distribution operations only touch flow fields and queue flags). -/
def SameShape (e e' : Engine) : Prop :=
  ∀ j, (getS e' j).state = (getS e j).state ∧
       (getS e' j).pending_send = (getS e j).pending_send

/-- Concrete engine: one stream already closed, generous connection window. -/
def EC9 : Engine :=
  { streams := [{ HStream.empty with state := .Closed }],
    pending_send := [], pending_capacity := [], flow := ⟨100, 100⟩ }

/-- Concrete engine at the failing try_assign_capacity call: the connection
window is exhausted, the stream has window headroom (10), nothing assigned,
5 bytes freshly buffered and requested (this is the state send_data reaches
after two streams drained the connection window, or with a zero initial
connection window followed by a stream-level WINDOW_UPDATE). -/
def EC7 : Engine :=
  { streams := [{ HStream.empty with
                  state := .Open, send_flow := ⟨10, 0⟩,
                  requested_send_capacity := 5, buffered_send_data := 5 }],
    pending_send := [], pending_capacity := [], flow := ⟨0, 0⟩ }

/-- Concrete engine: a scheduled stream whose head frame is DATA of size 1
while its stream-level available capacity is zero. -/
def EC6 : Engine :=
  { streams := [{ HStream.empty with
                  state := .Open, send_flow := ⟨10, 0⟩,
                  requested_send_capacity := 1, buffered_send_data := 1,
                  pending_send := [.Data 1 false], is_pending_send := true }],
    pending_send := [0], pending_capacity := [], flow := ⟨100, 50⟩ }

/-- Concrete engine: a scheduled open stream with assigned capacity 7 of a
10-byte window, a 5-byte DATA frame queued, connection window 100 with 40
available. -/
def EC0 : Engine :=
  { streams := [{ HStream.empty with
                  state := .Open, send_flow := ⟨10, 7⟩,
                  requested_send_capacity := 7, buffered_send_data := 5,
                  pending_send := [.Data 5 true], is_pending_send := true }],
    pending_send := [0], pending_capacity := [], flow := ⟨100, 40⟩ }

/- ===== Claims about the frame reader ===== -/

/-- C3: whenever the frame reader holds a partial HEADERS (END_HEADERS not yet
seen), decoding any frame whose kind is not CONTINUATION returns a
connection-level PROTOCOL_ERROR and leaves the pending slot in place; in
particular a second HEADERS frame, on any stream, is rejected this way. -/
theorem c3_pending_rejects_non_continuation (p : InProgress) (f : InputFrame)
    (h : f.kind ≠ .Continuation) :
    decodeFrame (some p) f = (.error (.Connection .ProtocolError), some p) := by
  simp [decodeFrame, h]

/-- Witness for C3: a second HEADERS frame (stream 7) while stream 5's HEADERS
is still being reassembled. -/
theorem c3_pending_rejects_non_continuation_witness :
    decodeFrame (some ⟨5, [1]⟩) ⟨.Headers, 7, true, none, none, [2]⟩
      = (.error (.Connection .ProtocolError), some ⟨5, [1]⟩) :=
  c3_pending_rejects_non_continuation ⟨5, [1]⟩ ⟨.Headers, 7, true, none, none, [2]⟩
    (by decide)

/-- C2 counterexample: with a HEADERS for stream 1 pending, a CONTINUATION on
stream 3 that does not carry END_HEADERS is absorbed into the buffer and
decode_frame returns Ok(None) — no PROTOCOL_ERROR is raised, contradicting
the claim that each CONTINUATION of the sequence is checked. -/
theorem c2_mismatch_without_end_headers_not_rejected :
    decodeFrame (some ⟨1, [10]⟩) ⟨.Continuation, 3, false, none, none, [11]⟩
      = (.ok none, some ⟨1, [10, 11]⟩) := by
  rfl

/-- C2 as amended: the stream id of a CONTINUATION is compared against the
in-progress HEADERS only on the frame that carries END_HEADERS; such a frame
with a differing stream id yields a connection-level PROTOCOL_ERROR (and the
pending slot is dropped). -/
theorem c2_continuation_id_mismatch_rejected (p : InProgress) (f : InputFrame)
    (hk : f.kind = .Continuation) (he : f.endHeaders = true)
    (hid : p.streamId ≠ f.streamId) :
    decodeFrame (some p) f = (.error (.Connection .ProtocolError), none) := by
  simp [decodeFrame, hk, he, hid]

/-- Witness for C2's amended theorem: pending HEADERS on stream 1, final
CONTINUATION on stream 2. -/
theorem c2_continuation_id_mismatch_rejected_witness :
    decodeFrame (some ⟨1, []⟩) ⟨.Continuation, 2, true, none, none, []⟩
      = (.error (.Connection .ProtocolError), none) :=
  c2_continuation_id_mismatch_rejected ⟨1, []⟩ ⟨.Continuation, 2, true, none, none, []⟩
    rfl rfl (by decide)

/-- C4 counterexample: while a partial HEADERS is pending, a frame of unknown
kind is not silently discarded — it hits the partial check and decode_frame
returns a connection-level PROTOCOL_ERROR. -/
theorem c4_unknown_not_discarded_while_pending :
    decodeFrame (some ⟨1, []⟩) ⟨.Unknown, 9, false, none, none, []⟩
      = (.error (.Connection .ProtocolError), some ⟨1, []⟩) := by
  rfl

/-- C4 as amended: when no partial HEADERS is pending, a frame of unknown
kind is discarded: decode_frame returns no frame and no error, and the state
stays empty. -/
theorem c4_unknown_discarded (f : InputFrame) (hk : f.kind = .Unknown) :
    decodeFrame none f = (.ok none, none) := by
  simp [decodeFrame, hk]

/-- Witness for C4's amended theorem. -/
theorem c4_unknown_discarded_witness :
    decodeFrame none ⟨.Unknown, 9, false, none, none, [3]⟩ = (.ok none, none) :=
  c4_unknown_discarded ⟨.Unknown, 9, false, none, none, [3]⟩ rfl

/- ===== Claims about the send path ===== -/

/-- C9 counterexample: a payload longer than MAX_WINDOW_SIZE on a closed
stream hits the unimplemented overflow branch (a panic in the source) before
the state check, so the call does not return InactiveStreamId. -/
theorem c9_oversized_payload_panics_first :
    sendData EC9 0 (2 ^ 31) false = (.error .unimplementedOverflow, EC9) := by
  rfl

/-- C9 as amended: for every call to send_data with payload at most
MAX_WINDOW_SIZE on a stream whose state is not send-streaming, the call
returns InactiveStreamId when the state is closed and UnexpectedFrameType
otherwise, and the engine (stream state, flows, deques, counters) is
unchanged. -/
theorem c9_send_data_rejected_when_not_streaming (e : Engine) (k : Nat)
    (sz : Nat) (eos : Bool)
    (hsz : (sz : Int) ≤ MAX_WINDOW_SIZE)
    (hs : (getS e k).state.is_send_streaming = false) :
    sendData e k sz eos =
      (.error (if (getS e k).state.is_closed then .inactiveStreamId
               else .unexpectedFrameType), e) := by
  have h1 : ¬ ((sz : Int) > MAX_WINDOW_SIZE) := not_lt.mpr hsz
  unfold sendData
  rw [if_neg h1]
  simp only [hs]
  split
  · split <;> rfl
  · simp_all

/-- Witness for C9's amended theorem: a 3-byte DATA frame on the closed
stream of EC9. -/
theorem c9_send_data_rejected_when_not_streaming_witness :
    sendData EC9 0 3 false =
      (.error (if (getS EC9 0).state.is_closed then .inactiveStreamId
               else .unexpectedFrameType), EC9) :=
  c9_send_data_rejected_when_not_streaming EC9 0 3 false (by decide) (by decide)

/- ===== Shared lemmas about the engine embedding ===== -/

theorem getS_ext (e' e : Engine) (h : e'.streams = e.streams) (j : Nat) :
    getS e' j = getS e j := by
  unfold getS; rw [h]

theorem getS_setS_self (e : Engine) (k : Nat) (s : HStream)
    (h : k < e.streams.length) : getS (setS e k s) k = s := by
  simp [getS, setS, List.getElem?_set_self h]

theorem getS_setS_ne (e : Engine) (k j : Nat) (s : HStream) (h : k ≠ j) :
    getS (setS e k s) j = getS e j := by
  simp [getS, setS, List.getElem?_set_ne h]

theorem setS_streams_of_ge (e : Engine) (k : Nat) (s : HStream)
    (h : e.streams.length ≤ k) : (setS e k s).streams = e.streams := by
  simp [setS, List.set_eq_of_length_le h]

theorem mapSum_set (f : HStream → Int) :
    ∀ (l : List HStream) (k : Nat) (x : HStream), k < l.length →
      ((l.set k x).map f).sum = (l.map f).sum - f (l.getD k HStream.empty) + f x
  | a :: l, 0, x, _ => by simp; ring
  | a :: l, k + 1, x, h => by
    have ih := mapSum_set f l k x (by simpa using h)
    simp only [List.set_cons_succ, List.map_cons, List.sum_cons, List.getD_cons_succ, ih]
    ring

theorem sumAvail_setS (e : Engine) (k : Nat) (s : HStream)
    (h : k < e.streams.length) :
    sumAvail (setS e k s) =
      sumAvail e - (getS e k).send_flow.available + s.send_flow.available := by
  simpa [sumAvail, setS, getS] using
    mapSum_set (fun s => s.send_flow.available) e.streams k s h

theorem sumAvail_setS_of_ge (e : Engine) (k : Nat) (s : HStream)
    (h : e.streams.length ≤ k) : sumAvail (setS e k s) = sumAvail e := by
  unfold sumAvail
  rw [setS_streams_of_ge e k s h]

theorem sumAvail_setS_same (e : Engine) (k : Nat) (s : HStream)
    (h : s.send_flow.available = (getS e k).send_flow.available) :
    sumAvail (setS e k s) = sumAvail e := by
  rcases Nat.lt_or_ge k e.streams.length with hk | hk
  · rw [sumAvail_setS e k s hk, h]; ring
  · exact sumAvail_setS_of_ge e k s hk

theorem getS_setS_shape (e : Engine) (k : Nat) (s : HStream)
    (hst : s.state = (getS e k).state)
    (hdq : s.pending_send = (getS e k).pending_send) (j : Nat) :
    (getS (setS e k s) j).state = (getS e j).state ∧
    (getS (setS e k s) j).pending_send = (getS e j).pending_send := by
  by_cases hj : k = j
  · subst hj
    by_cases hk : k < e.streams.length
    · rw [getS_setS_self e k s hk]; exact ⟨hst, hdq⟩
    · unfold getS
      rw [setS_streams_of_ge e k s (le_of_not_lt hk)]
      exact ⟨rfl, rfl⟩
  · rw [getS_setS_ne e k j s hj]; exact ⟨rfl, rfl⟩

theorem sameShape_refl (e : Engine) : SameShape e e := fun _ => ⟨rfl, rfl⟩

theorem sameShape_trans {a b c : Engine} (h1 : SameShape a b) (h2 : SameShape b c) :
    SameShape a c := by
  intro j
  exact ⟨(h2 j).1.trans (h1 j).1, (h2 j).2.trans (h1 j).2⟩

theorem pushPendingSend_flow (e : Engine) (k : Nat) :
    (pushPendingSend e k).flow = e.flow := by
  simp only [pushPendingSend]
  split <;> rfl

theorem pushPendingSend_sumAvail (e : Engine) (k : Nat) :
    sumAvail (pushPendingSend e k) = sumAvail e := by
  simp only [pushPendingSend]
  split
  · rfl
  · exact sumAvail_setS_same e k _ rfl

theorem pushPendingSend_shape (e : Engine) (k : Nat) :
    SameShape e (pushPendingSend e k) := by
  simp only [pushPendingSend]
  split
  · exact sameShape_refl e
  · intro j
    exact getS_setS_shape e k { getS e k with is_pending_send := true } rfl rfl j

theorem pushPendingCapacity_flow (e : Engine) (k : Nat) :
    (pushPendingCapacity e k).flow = e.flow := by
  simp only [pushPendingCapacity]
  split <;> rfl

theorem pushPendingCapacity_sumAvail (e : Engine) (k : Nat) :
    sumAvail (pushPendingCapacity e k) = sumAvail e := by
  simp only [pushPendingCapacity]
  split
  · rfl
  · exact sumAvail_setS_same e k _ rfl

theorem pushPendingCapacity_shape (e : Engine) (k : Nat) :
    SameShape e (pushPendingCapacity e k) := by
  simp only [pushPendingCapacity]
  split
  · exact sameShape_refl e
  · intro j
    exact getS_setS_shape e k { getS e k with is_pending_send_capacity := true } rfl rfl j

@[simp] theorem setS_streams (e : Engine) (k : Nat) (s : HStream) :
    (setS e k s).streams = e.streams.set k s := rfl

@[simp] theorem setS_pending_send (e : Engine) (k : Nat) (s : HStream) :
    (setS e k s).pending_send = e.pending_send := rfl

@[simp] theorem setS_pending_capacity (e : Engine) (k : Nat) (s : HStream) :
    (setS e k s).pending_capacity = e.pending_capacity := rfl

@[simp] theorem setS_flow (e : Engine) (k : Nat) (s : HStream) :
    (setS e k s).flow = e.flow := rfl

@[simp] theorem assign_capacity_available (f : FlowControl) (n : Int) :
    (f.assign_capacity n).available = f.available + n := rfl

@[simp] theorem assign_capacity_window (f : FlowControl) (n : Int) :
    (f.assign_capacity n).window_size = f.window_size := rfl

@[simp] theorem claim_capacity_available (f : FlowControl) (n : Int) :
    (f.claim_capacity n).available = f.available - n := rfl

@[simp] theorem claim_capacity_window (f : FlowControl) (n : Int) :
    (f.claim_capacity n).window_size = f.window_size := rfl

@[simp] theorem send_data_available (f : FlowControl) (n : Int) :
    (f.send_data n).available = f.available - n := rfl

@[simp] theorem send_data_window (f : FlowControl) (n : Int) :
    (f.send_data n).window_size = f.window_size - n := rfl

@[simp] theorem hstream_assign_state (s : HStream) (c : Int) :
    (s.assign_capacity c).state = s.state := rfl

@[simp] theorem hstream_assign_deque (s : HStream) (c : Int) :
    (s.assign_capacity c).pending_send = s.pending_send := rfl

@[simp] theorem hstream_assign_flow (s : HStream) (c : Int) :
    (s.assign_capacity c).send_flow = s.send_flow.assign_capacity c := rfl

theorem getS_of_ge (e : Engine) (k : Nat) (h : e.streams.length ≤ k) :
    getS e k = HStream.empty := by
  simp [getS, List.getElem?_eq_none h]

theorem tryAssignCapacity_of_ge (e : Engine) (k : Nat) (h : e.streams.length ≤ k) :
    tryAssignCapacity e k = e := by
  simp [tryAssignCapacity, getS_of_ge e k h, HStream.empty]

theorem tryAssignCapacity_props (e : Engine) (k : Nat) :
    sumAvail (tryAssignCapacity e k) + (tryAssignCapacity e k).flow.available
      = sumAvail e + e.flow.available ∧
    (tryAssignCapacity e k).flow.window_size = e.flow.window_size ∧
    SameShape e (tryAssignCapacity e k) := by
  have base :
      ∀ x : Engine,
        (sumAvail x + x.flow.available = sumAvail e + e.flow.available ∧
         x.flow.window_size = e.flow.window_size ∧ SameShape e x) →
        ((sumAvail (pushPendingSend x k) + (pushPendingSend x k).flow.available
            = sumAvail e + e.flow.available ∧
          (pushPendingSend x k).flow.window_size = e.flow.window_size ∧
          SameShape e (pushPendingSend x k)) ∧
         (sumAvail (pushPendingCapacity x k) + (pushPendingCapacity x k).flow.available
            = sumAvail e + e.flow.available ∧
          (pushPendingCapacity x k).flow.window_size = e.flow.window_size ∧
          SameShape e (pushPendingCapacity x k))) := by
    rintro x ⟨hs, hw, hsh⟩
    constructor
    · rw [pushPendingSend_sumAvail, pushPendingSend_flow]
      exact ⟨hs, hw, sameShape_trans hsh (pushPendingSend_shape x k)⟩
    · rw [pushPendingCapacity_sumAvail, pushPendingCapacity_flow]
      exact ⟨hs, hw, sameShape_trans hsh (pushPendingCapacity_shape x k)⟩
  have triv : sumAvail e + e.flow.available = sumAvail e + e.flow.available ∧
      e.flow.window_size = e.flow.window_size ∧ SameShape e e :=
    ⟨rfl, rfl, sameShape_refl e⟩
  by_cases hk : k < e.streams.length
  · have hLIT :
        ∀ assign : Int,
          sumAvail { setS e k ((getS e k).assign_capacity assign) with
                     flow := (setS e k ((getS e k).assign_capacity assign)).flow.claim_capacity assign } +
            ({ setS e k ((getS e k).assign_capacity assign) with
               flow := (setS e k ((getS e k).assign_capacity assign)).flow.claim_capacity assign } : Engine).flow.available
            = sumAvail e + e.flow.available ∧
          ({ setS e k ((getS e k).assign_capacity assign) with
             flow := (setS e k ((getS e k).assign_capacity assign)).flow.claim_capacity assign } : Engine).flow.window_size
            = e.flow.window_size ∧
          SameShape e { setS e k ((getS e k).assign_capacity assign) with
                        flow := (setS e k ((getS e k).assign_capacity assign)).flow.claim_capacity assign } := by
      intro assign
      refine ⟨?_, rfl, ?_⟩
      · have h1 : sumAvail { setS e k ((getS e k).assign_capacity assign) with
                            flow := (setS e k ((getS e k).assign_capacity assign)).flow.claim_capacity assign }
            = sumAvail (setS e k ((getS e k).assign_capacity assign)) := rfl
        rw [h1, sumAvail_setS e k _ hk]
        simp only [hstream_assign_flow, assign_capacity_available, setS_flow,
                   claim_capacity_available]
        ring
      · intro j
        exact getS_setS_shape e k ((getS e k).assign_capacity assign) rfl rfl j
    simp only [tryAssignCapacity]
    split
    · exact triv
    · split <;> split <;> split
      · exact (base _ ((base _ (hLIT _)).2)).1
      · exact (base _ (hLIT _)).2
      · exact (base _ (hLIT _)).1
      · exact hLIT _
      · exact (base _ ((base _ triv).2)).1
      · exact (base _ triv).2
      · exact (base _ triv).1
      · exact triv
  · rw [tryAssignCapacity_of_ge e k (le_of_not_lt hk)]
    exact triv

theorem popPendingSend_props (e : Engine) (k : Nat) (e1 : Engine)
    (h : popPendingSend e = some (k, e1)) :
    sumAvail e1 = sumAvail e ∧ e1.flow = e.flow ∧
    e1.streams.length = e.streams.length ∧
    e.pending_send = k :: e1.pending_send ∧ SameShape e e1 := by
  unfold popPendingSend at h
  cases hpc : e.pending_send with
  | nil => rw [hpc] at h; cases h
  | cons k0 rest =>
    rw [hpc] at h
    simp only [Option.some.injEq, Prod.mk.injEq] at h
    obtain ⟨rfl, rfl⟩ := h
    refine ⟨sumAvail_setS_same e k0 _ rfl, rfl, by simp [setS], rfl, ?_⟩
    intro j
    exact getS_setS_shape e k0 { getS e k0 with is_pending_send := false } rfl rfl j

theorem popPendingCapacity_props (e : Engine) (k : Nat) (e1 : Engine)
    (h : popPendingCapacity e = some (k, e1)) :
    sumAvail e1 = sumAvail e ∧ e1.flow = e.flow ∧
    e1.streams.length = e.streams.length ∧
    e.pending_capacity = k :: e1.pending_capacity ∧ SameShape e e1 := by
  unfold popPendingCapacity at h
  cases hpc : e.pending_capacity with
  | nil => rw [hpc] at h; cases h
  | cons k0 rest =>
    rw [hpc] at h
    simp only [Option.some.injEq, Prod.mk.injEq] at h
    obtain ⟨rfl, rfl⟩ := h
    refine ⟨sumAvail_setS_same e k0 _ rfl, rfl, by simp [setS], rfl, ?_⟩
    intro j
    exact getS_setS_shape e k0 { getS e k0 with is_pending_send_capacity := false } rfl rfl j

theorem assignLoop_props (fuel : Nat) (e : Engine) :
    sumAvail (assignLoop fuel e) + (assignLoop fuel e).flow.available
      = sumAvail e + e.flow.available ∧
    (assignLoop fuel e).flow.window_size = e.flow.window_size ∧
    SameShape e (assignLoop fuel e) := by
  induction fuel generalizing e with
  | zero => exact ⟨rfl, rfl, sameShape_refl e⟩
  | succ n ih =>
    rw [assignLoop]
    split
    · rcases hp : popPendingCapacity e with _ | ⟨k, e1⟩ <;> dsimp only
      · exact ⟨rfl, rfl, sameShape_refl e⟩
      · have hpop := popPendingCapacity_props e k e1 hp
        have htry := tryAssignCapacity_props e1 k
        have hl := ih (tryAssignCapacity e1 k)
        refine ⟨?_, ?_, ?_⟩
        · rw [hl.1, htry.1, hpop.1, hpop.2.1]
        · rw [hl.2.1, htry.2.1, hpop.2.1]
        · exact sameShape_trans (sameShape_trans hpop.2.2.2.2 htry.2.2) hl.2.2
    · exact ⟨rfl, rfl, sameShape_refl e⟩

theorem assignConnectionCapacity_props (inc : Int) (e : Engine) :
    sumAvail (assignConnectionCapacity inc e) +
        (assignConnectionCapacity inc e).flow.available
      = sumAvail e + e.flow.available + inc ∧
    (assignConnectionCapacity inc e).flow.window_size = e.flow.window_size ∧
    SameShape e (assignConnectionCapacity inc e) := by
  unfold assignConnectionCapacity
  have h := assignLoop_props (e.pending_capacity.length + 1)
      { e with flow := e.flow.assign_capacity inc }
  refine ⟨?_, ?_, ?_⟩
  · rw [h.1]; simp [FlowControl.assign_capacity, sumAvail]; ring
  · rw [h.2.1]; simp
  · exact sameShape_trans (fun j => ⟨rfl, rfl⟩) h.2.2

theorem flowInv_pushPendingSend (e : Engine) (k : Nat) (h : FlowInv e) :
    FlowInv (pushPendingSend e k) := by
  unfold FlowInv
  rw [pushPendingSend_sumAvail, pushPendingSend_flow]
  exact h

theorem popFrameLoop_flowInv (maxLen : Nat) :
    ∀ (fuel : Nat) (e : Engine), FlowInv e →
      ∀ r e2, popFrameLoop maxLen fuel e = .ok (r, e2) → FlowInv e2 := by
  intro fuel
  induction fuel with
  | zero =>
    intro e hinv r e2 h
    rw [popFrameLoop] at h
    simp only [Except.ok.injEq, Prod.mk.injEq] at h
    obtain ⟨-, rfl⟩ := h
    exact hinv
  | succ n ih =>
    intro e hinv r e2 h
    rw [popFrameLoop] at h
    rcases hp : popPendingSend e with _ | ⟨k, e1⟩ <;> rw [hp] at h <;> dsimp only at h
    · simp only [Except.ok.injEq, Prod.mk.injEq] at h
      obtain ⟨-, rfl⟩ := h
      exact hinv
    · have hpop := popPendingSend_props e k e1 hp
      have hinv1 : FlowInv e1 := by
        unfold FlowInv at hinv ⊢
        rw [hpop.1, hpop.2.1]
        exact hinv
      split at h
      · simp at h
      · rename_i f dq heq
        split at h
        · -- DATA frame
          rename_i sz fEos
          split at h
          · -- zero stream capacity: re-buffer and continue
            refine ih _ ?_ r e2 h
            unfold FlowInv
            simp only [setS_flow]
            rw [sumAvail_setS_same]
            · exact hinv1
            · rfl
          · -- emit a chunk
            have hk : k < e1.streams.length := by
              by_contra hk2
              rw [getS_of_ge e1 k (le_of_not_lt hk2)] at heq
              simp [HStream.empty] at heq
            unfold FlowInv at hinv1
            unfold sumAvail at hinv1
            simp only [Except.ok.injEq, Prod.mk.injEq] at h
            obtain ⟨-, rfl⟩ := h
            unfold FlowInv
            split
            · rw [sumAvail_setS]
              · simp [sumAvail, getS]
                linarith
              · exact hk
            · apply flowInv_pushPendingSend
              unfold FlowInv
              rw [sumAvail_setS]
              · simp [sumAvail, getS]
                linarith
              · exact hk
        · -- HEADERS frame
          simp only [Except.ok.injEq, Prod.mk.injEq] at h
          obtain ⟨-, rfl⟩ := h
          split
          · unfold FlowInv
            simp only [setS_flow]
            rw [sumAvail_setS_same]
            · exact hinv1
            · rfl
          · apply flowInv_pushPendingSend
            unfold FlowInv
            simp only [setS_flow]
            rw [sumAvail_setS_same]
            · exact hinv1
            · rfl
        · -- RST_STREAM frame
          simp only [Except.ok.injEq, Prod.mk.injEq] at h
          obtain ⟨-, rfl⟩ := h
          split
          · unfold FlowInv
            simp only [setS_flow]
            rw [sumAvail_setS_same]
            · exact hinv1
            · rfl
          · apply flowInv_pushPendingSend
            unfold FlowInv
            simp only [setS_flow]
            rw [sumAvail_setS_same]
            · exact hinv1
            · rfl

theorem queueFrame_props (f : HFrame) (k : Nat) (e : Engine) :
    sumAvail (queueFrame f k e) = sumAvail e ∧ (queueFrame f k e).flow = e.flow := by
  unfold queueFrame
  constructor
  · rw [pushPendingSend_sumAvail, sumAvail_setS_same]
    rfl
  · rw [pushPendingSend_flow]
    exact setS_flow _ _ _

theorem clearQueue_props (k : Nat) (e : Engine) :
    sumAvail (clearQueue k e) = sumAvail e ∧ (clearQueue k e).flow = e.flow := by
  unfold clearQueue
  refine ⟨?_, rfl⟩
  rw [sumAvail_setS_same]
  rfl

theorem sumAvail_claim_all (x : Engine) (k : Nat) :
    sumAvail (setS x k { getS x k with
        send_flow := (getS x k).send_flow.claim_capacity (getS x k).send_flow.available })
      = sumAvail x - (getS x k).send_flow.available := by
  by_cases hk : k < x.streams.length
  · rw [sumAvail_setS _ _ _ hk]
    simp
  · rw [sumAvail_setS_of_ge _ _ _ (le_of_not_lt hk)]
    rw [getS_of_ge _ _ (le_of_not_lt hk)]
    simp [HStream.empty]

theorem sendReset_flow_conserve (r : Reason) (k : Nat) (e : Engine) :
    sumAvail (sendReset r k e) + (sendReset r k e).flow.available
      = sumAvail e + e.flow.available ∧
    (sendReset r k e).flow.window_size = e.flow.window_size := by
  simp only [sendReset]
  split
  · exact ⟨rfl, rfl⟩
  split
  · exact ⟨rfl, rfl⟩
  constructor
  · rw [(assignConnectionCapacity_props _ _).1]
    rw [(queueFrame_props _ _ _).1, (queueFrame_props _ _ _).2]
    rw [sumAvail_claim_all]
    simp only [setS_flow]
    rw [(clearQueue_props _ _).1, (clearQueue_props _ _).2]
    rw [sumAvail_setS_same]
    · simp only [setS_flow]
      ring
    · rfl
  · rw [(assignConnectionCapacity_props _ _).2.1]
    rw [(queueFrame_props _ _ _).2]
    rfl

/-- C1: the capacity-conservation bound — the sum of all streams'
send_flow.available plus the connection flow controller's available capacity
is at most the connection window.  It holds in the initial engine produced by
Prioritize::new, and it is preserved by every operation that moves capacity:
try_assign_capacity (stream assign paired with connection claim), pop_frame
(stream send_data paired with connection assign_capacity/send_data) and
send_reset (stream reclaim followed by assign_connection_capacity). -/
theorem c1_connection_capacity_bound :
    (∀ (w : Int) (e0 : Engine), initEngine w = .ok e0 → FlowInv e0) ∧
    (∀ (e : Engine) (k : Nat), FlowInv e → FlowInv (tryAssignCapacity e k)) ∧
    (∀ (maxLen : Nat) (e : Engine) (r : Option OutFrame) (e2 : Engine),
      FlowInv e → popFrame maxLen e = .ok (r, e2) → FlowInv e2) ∧
    (∀ (r : Reason) (k : Nat) (e : Engine), FlowInv e → FlowInv (sendReset r k e)) := by
  refine ⟨?_, ?_, ?_, ?_⟩
  · intro w e0 h
    unfold initEngine at h
    cases hiw : (FlowControl.mk 0 0).inc_window w with
    | error r => rw [hiw] at h; cases h
    | ok f =>
      rw [hiw] at h
      simp only [Except.ok.injEq] at h
      subst h
      unfold FlowControl.inc_window at hiw
      split at hiw
      · cases hiw
      · simp only [Except.ok.injEq] at hiw
        subst hiw
        unfold FlowInv sumAvail
        simp
  · intro e k h
    have hp := tryAssignCapacity_props e k
    unfold FlowInv at h ⊢
    rw [hp.2.1]
    linarith [hp.1]
  · intro maxLen e r e2 h hpf
    exact popFrameLoop_flowInv maxLen _ e h r e2 hpf
  · intro r k e h
    have hp := sendReset_flow_conserve r k e
    unfold FlowInv at h ⊢
    rw [hp.2]
    linarith [hp.1]

/-- Witness for C1: the bound after try_assign_capacity and send_reset on the
concrete engine EC0, after a (trivially draining) pop_frame on EC9, and in
the engine built with initial window 10. -/
theorem c1_connection_capacity_bound_witness :
    FlowInv (tryAssignCapacity EC0 0) ∧
    FlowInv (sendReset .Cancel 0 EC0) ∧
    FlowInv EC9 ∧
    FlowInv { streams := [], pending_send := [], pending_capacity := [],
              flow := ⟨10, 10⟩ } :=
  ⟨c1_connection_capacity_bound.2.1 EC0 0 (by unfold FlowInv; decide),
   c1_connection_capacity_bound.2.2.2 .Cancel 0 EC0 (by unfold FlowInv; decide),
   c1_connection_capacity_bound.2.2.1 5 EC9 none EC9 (by unfold FlowInv; decide) rfl,
   c1_connection_capacity_bound.1 10 _ rfl⟩

/-- C7 (code bug): in the reachable try_assign_capacity call captured by EC7
— requested 5, assigned 0, stream window 10, 5 bytes buffered, connection
window exhausted — additional = min(5 - 0, 10) = 5 > 0, yet the call ends
with the stream scheduled in pending_send while buffered_send_data = 5 > 0
and send_flow.available = 0: the body of the internal
debug_assert!(stream.send_flow.available() > 0) is false.  (This state is
reached, e.g., after one stream claims the whole connection window and a
second stream calls send_data, or with a zero initial connection window and a
stream-level WINDOW_UPDATE.) -/
theorem c7_assert_violated_when_connection_exhausted :
    min ((getS EC7 0).requested_send_capacity - (getS EC7 0).send_flow.available)
        (getS EC7 0).send_flow.window_size > 0 ∧
    (getS (tryAssignCapacity EC7 0) 0).buffered_send_data > 0 ∧
    (tryAssignCapacity EC7 0).pending_send = [0] ∧
    ¬ ((getS (tryAssignCapacity EC7 0) 0).send_flow.available > 0) := by
  refine ⟨by decide, by decide, by decide, by decide⟩

theorem getS_setS_field {α : Type} (g : HStream → α) (e : Engine) (k : Nat)
    (s : HStream) (hg : g s = g (getS e k)) (j : Nat) :
    g (getS (setS e k s) j) = g (getS e j) := by
  by_cases hj : k = j
  · subst hj
    by_cases hk : k < e.streams.length
    · rw [getS_setS_self e k s hk]; exact hg
    · unfold getS
      rw [setS_streams_of_ge e k s (le_of_not_lt hk)]
  · rw [getS_setS_ne e k j s hj]

theorem pushPendingSend_sendflow (e : Engine) (k j : Nat) :
    (getS (pushPendingSend e k) j).send_flow = (getS e j).send_flow := by
  simp only [pushPendingSend]
  split
  · rfl
  · exact getS_setS_field (fun s => s.send_flow) e k
      { getS e k with is_pending_send := true } rfl j

/-- C6 as amended: when the stream at the head of pending_send has a DATA
frame of size sz > 0 at the head of its deque and a strictly positive
stream-level available capacity, pop_frame emits that frame with a Take
wrapper of length len = min(sz, max_frame_len, available); the emitted
fragment's END_STREAM flag is cleared exactly when len < sz while the
Prioritized wrapper remembers the original flag; the stream flow is debited
by len (send_data), and the connection flow is credited by len
(assign_capacity) and then debited by len (send_data), so its available is
unchanged and its window shrinks by len.  (The unamended claim, with
available = 0 allowed, is refuted separately: the frame is pushed back and
nothing is emitted.) -/
theorem c6_pop_frame_data_emission (e : Engine) (k : Nat) (rest : List Nat)
    (sz : Nat) (fEos : Bool) (dq : List HFrame) (maxLen : Nat)
    (hq : e.pending_send = k :: rest)
    (hd : (getS e k).pending_send = .Data sz fEos :: dq)
    (hsz : 0 < sz)
    (hcap : 0 < (getS e k).send_flow.available) :
    ∃ e2,
      popFrame maxLen e =
        .ok (some (.Data
          { sz := sz,
            take := min (min sz maxLen) (getS e k).send_flow.available.toNat,
            end_stream :=
              if sz > min (min sz maxLen) (getS e k).send_flow.available.toNat
              then false else fEos,
            eos := fEos, key := k }), e2) ∧
      (getS e2 k).send_flow.available
        = (getS e k).send_flow.available
          - (min (min sz maxLen) (getS e k).send_flow.available.toNat : Int) ∧
      (getS e2 k).send_flow.window_size
        = (getS e k).send_flow.window_size
          - (min (min sz maxLen) (getS e k).send_flow.available.toNat : Int) ∧
      e2.flow.available = e.flow.available ∧
      e2.flow.window_size
        = e.flow.window_size
          - (min (min sz maxLen) (getS e k).send_flow.available.toNat : Int) := by
  have hk : k < e.streams.length := by
    by_contra hk2
    rw [getS_of_ge e k (le_of_not_lt hk2)] at hd
    simp [HStream.empty] at hd
  unfold popFrame
  rw [hq, List.length_cons, popFrameLoop]
  have hpop : popPendingSend e
      = some (k, { setS e k { getS e k with is_pending_send := false } with
                   pending_send := rest }) := by
    unfold popPendingSend
    rw [hq]
  rw [hpop]
  dsimp only
  have hg1 : getS { setS e k { getS e k with is_pending_send := false } with
                    pending_send := rest } k
      = { getS e k with is_pending_send := false } :=
    getS_setS_self e k _ hk
  rw [hg1]
  dsimp only
  rw [hd]
  dsimp only
  rw [if_neg (by
    rintro ⟨-, h0⟩
    omega)]
  refine ⟨_, rfl, ?_, ?_, ?_, ?_⟩
  · split
    · rw [getS_setS_self]
      · simp [min_assoc]
      · simpa using hk
    · rw [pushPendingSend_sendflow, getS_setS_self]
      · simp [min_assoc]
      · simpa using hk
  · split
    · rw [getS_setS_self]
      · simp [min_assoc]
      · simpa using hk
    · rw [pushPendingSend_sendflow, getS_setS_self]
      · simp [min_assoc]
      · simpa using hk
  · split
    · simp [setS_flow]
    · rw [pushPendingSend_flow]
      simp [setS_flow]
  · split
    · simp [setS_flow, min_assoc]
    · rw [pushPendingSend_flow]
      simp [setS_flow, min_assoc]

theorem schedInv_setS (e : Engine) (k : Nat) (s : HStream) (h : SchedInv e)
    (hks : k ∈ e.pending_send →
      s.is_pending_send = (getS e k).is_pending_send ∧ s.pending_send ≠ []) :
    SchedInv (setS e k s) := by
  obtain ⟨hnd, hm⟩ := h
  refine ⟨by simpa [setS] using hnd, ?_⟩
  intro j hj
  have hj' : j ∈ e.pending_send := by simpa [setS] using hj
  obtain ⟨h1, h2, h3⟩ := hm j hj'
  by_cases hjk : j = k
  · subst hjk
    rw [getS_setS_self e j s h1]
    obtain ⟨hf, hd⟩ := hks hj'
    exact ⟨by simpa [setS] using h1, by rw [hf]; exact h2, hd⟩
  · rw [getS_setS_ne e k j s (fun hh => hjk hh.symm)]
    exact ⟨by simpa [setS] using h1, h2, h3⟩

theorem schedInv_pushPendingSend (e : Engine) (k : Nat) (h : SchedInv e)
    (hk : k < e.streams.length) (hd : (getS e k).pending_send ≠ []) :
    SchedInv (pushPendingSend e k) := by
  obtain ⟨hnd, hm⟩ := h
  simp only [pushPendingSend]
  split
  · exact ⟨hnd, hm⟩
  · rename_i hflag
    have hnotin : k ∉ e.pending_send := by
      intro hmem
      exact hflag (hm k hmem).2.1
    constructor
    · simpa [setS] using List.Nodup.append hnd (List.nodup_singleton k)
        (by simpa using hnotin)
    · intro j hj
      have hj2 : j ∈ e.pending_send ++ [k] := hj
      rcases List.mem_append.mp hj2 with hjq | hjk
      · have hjk : j ≠ k := fun hh => hnotin (hh ▸ hjq)
        obtain ⟨h1, h2, h3⟩ := hm j hjq
        have hne : getS { setS e k { getS e k with is_pending_send := true } with
                          pending_send := e.pending_send ++ [k] } j = getS e j :=
          getS_setS_ne e k j _ (fun hh => hjk hh.symm)
        rw [hne]
        exact ⟨by simpa [setS] using h1, h2, h3⟩
      · have hjk : j = k := by simpa using hjk
        subst hjk
        have hself : getS { setS e j { getS e j with is_pending_send := true } with
                            pending_send := e.pending_send ++ [j] } j
            = { getS e j with is_pending_send := true } :=
          getS_setS_self e j _ hk
        rw [hself]
        exact ⟨by simpa [setS] using hk, rfl, hd⟩

theorem popFrameLoop_sched (maxLen : Nat) :
    ∀ (fuel : Nat) (e : Engine), SchedInv e → e.pending_send.length ≤ fuel →
      ∃ r e2, popFrameLoop maxLen fuel e = .ok (r, e2) ∧ SchedInv e2 := by
  intro fuel
  induction fuel with
  | zero =>
    intro e hinv hlen
    exact ⟨none, e, by rw [popFrameLoop], hinv⟩
  | succ n ih =>
    intro e hinv hlen
    rw [popFrameLoop]
    cases hq : e.pending_send with
    | nil =>
      have hpop : popPendingSend e = none := by
        unfold popPendingSend; rw [hq]
      rw [hpop]
      exact ⟨none, e, rfl, hinv⟩
    | cons k rest =>
      obtain ⟨hnd, hm⟩ := hinv
      have hkin : k ∈ e.pending_send := by rw [hq]; exact List.mem_cons_self _ _
      obtain ⟨hklen, hkflag, hkdq⟩ := hm k hkin
      have hknotin : k ∉ rest := by
        rw [hq] at hnd
        exact (List.nodup_cons.mp hnd).1
      have hlen2 : rest.length ≤ n := by
        rw [hq] at hlen
        simpa using hlen
      have hpop : popPendingSend e
          = some (k, { setS e k { getS e k with is_pending_send := false } with
                       pending_send := rest }) := by
        unfold popPendingSend; rw [hq]
      rw [hpop]
      dsimp only
      have hg1 : getS { setS e k { getS e k with is_pending_send := false } with
                        pending_send := rest } k
          = { getS e k with is_pending_send := false } :=
        getS_setS_self e k _ hklen
      rw [hg1]
      dsimp only
      have hinv1 : SchedInv { setS e k { getS e k with is_pending_send := false } with
                              pending_send := rest } := by
        constructor
        · rw [hq] at hnd
          exact (List.nodup_cons.mp hnd).2
        · intro j hj
          have hjrest : j ∈ rest := hj
          have hj' : j ∈ e.pending_send := by
            rw [hq]; exact List.mem_cons_of_mem _ hjrest
          have hjk : j ≠ k := fun hh => hknotin (hh ▸ hjrest)
          obtain ⟨h1, h2, h3⟩ := hm j hj'
          have hne : getS { setS e k { getS e k with is_pending_send := false } with
                            pending_send := rest } j = getS e j :=
            getS_setS_ne e k j _ (fun hh => hjk hh.symm)
          rw [hne]
          exact ⟨by simpa [setS] using h1, h2, h3⟩
      obtain ⟨f, dq, hfd⟩ : ∃ f dq, (getS e k).pending_send = f :: dq := by
        cases hcd : (getS e k).pending_send with
        | nil => exact absurd hcd hkdq
        | cons f dq => exact ⟨f, dq, rfl⟩
      rw [hfd]
      dsimp only at hg1 hinv1 ⊢
      rw [hfd] at hg1 hinv1
      cases f with
      | Data sz fEos =>
        dsimp only
        split
        · refine ih _ ?_ ?_
          · exact schedInv_setS _ k _ hinv1 (fun hmem => absurd hmem hknotin)
          · simpa [setS] using hlen2
        · rename_i hcapne
          refine ⟨_, _, rfl, ?_⟩
          split
          · exact schedInv_setS _ k _ hinv1 (fun hmem => absurd hmem hknotin)
          · rename_i hne
            apply schedInv_pushPendingSend
            · exact schedInv_setS _ k _ hinv1 (fun hmem => absurd hmem hknotin)
            · simpa [setS] using hklen
            · rw [getS_setS_self]
              · simpa using hne
              · simpa [setS] using hklen
      | Headers hEos =>
        dsimp only
        refine ⟨_, _, rfl, ?_⟩
        split
        · exact schedInv_setS _ k _ hinv1 (fun hmem => absurd hmem hknotin)
        · rename_i hne
          apply schedInv_pushPendingSend
          · exact schedInv_setS _ k _ hinv1 (fun hmem => absurd hmem hknotin)
          · simpa [setS] using hklen
          · rw [getS_setS_self]
            · simpa using hne
            · simpa [setS] using hklen
      | Reset rr =>
        dsimp only
        refine ⟨_, _, rfl, ?_⟩
        split
        · exact schedInv_setS _ k _ hinv1 (fun hmem => absurd hmem hknotin)
        · rename_i hne
          apply schedInv_pushPendingSend
          · exact schedInv_setS _ k _ hinv1 (fun hmem => absurd hmem hknotin)
          · simpa [setS] using hklen
          · rw [getS_setS_self]
            · simpa using hne
            · simpa [setS] using hklen

theorem schedInv_to_X (x : Nat) (e : Engine) (h : SchedInv e) : SchedInvX x e := by
  obtain ⟨hnd, hm⟩ := h
  exact ⟨hnd, fun k hk => ⟨(hm k hk).1, (hm k hk).2.1, fun _ => (hm k hk).2.2⟩⟩

theorem schedInvX_setS (x : Nat) (e : Engine) (k : Nat) (s : HStream)
    (h : SchedInvX x e)
    (hks : k ∈ e.pending_send →
      s.is_pending_send = (getS e k).is_pending_send ∧
      (k ≠ x → s.pending_send ≠ [])) :
    SchedInvX x (setS e k s) := by
  obtain ⟨hnd, hm⟩ := h
  refine ⟨by simpa [setS] using hnd, ?_⟩
  intro j hj
  have hj' : j ∈ e.pending_send := by simpa [setS] using hj
  obtain ⟨h1, h2, h3⟩ := hm j hj'
  by_cases hjk : j = k
  · subst hjk
    rw [getS_setS_self e j s h1]
    obtain ⟨hf, hd⟩ := hks hj'
    exact ⟨by simpa [setS] using h1, by rw [hf]; exact h2, hd⟩
  · rw [getS_setS_ne e k j s (fun hh => hjk hh.symm)]
    exact ⟨by simpa [setS] using h1, h2, h3⟩

theorem schedInvX_pushPendingSend_self (x : Nat) (e : Engine)
    (h : SchedInvX x e) (hk : x < e.streams.length) :
    SchedInvX x (pushPendingSend e x) := by
  obtain ⟨hnd, hm⟩ := h
  simp only [pushPendingSend]
  split
  · exact ⟨hnd, hm⟩
  · rename_i hflag
    have hnotin : x ∉ e.pending_send := by
      intro hmem
      exact hflag (hm x hmem).2.1
    constructor
    · simpa [setS] using List.Nodup.append hnd (List.nodup_singleton x)
        (by simpa using hnotin)
    · intro j hj
      have hj2 : j ∈ e.pending_send ++ [x] := hj
      rcases List.mem_append.mp hj2 with hjq | hjx
      · have hjx : j ≠ x := fun hh => hnotin (hh ▸ hjq)
        obtain ⟨h1, h2, h3⟩ := hm j hjq
        have hne : getS { setS e x { getS e x with is_pending_send := true } with
                          pending_send := e.pending_send ++ [x] } j = getS e j :=
          getS_setS_ne e x j _ (fun hh => hjx hh.symm)
        rw [hne]
        exact ⟨by simpa [setS] using h1, h2, h3⟩
      · have hjx : j = x := by simpa using hjx
        subst hjx
        have hself : getS { setS e j { getS e j with is_pending_send := true } with
                            pending_send := e.pending_send ++ [j] } j
            = { getS e j with is_pending_send := true } :=
          getS_setS_self e j _ hk
        rw [hself]
        exact ⟨by simpa [setS] using hk, rfl, fun hh => absurd rfl hh⟩

theorem schedInvX_pushPendingCapacity (x : Nat) (e : Engine) (k : Nat)
    (h : SchedInvX x e) : SchedInvX x (pushPendingCapacity e k) := by
  simp only [pushPendingCapacity]
  split
  · exact h
  · obtain ⟨hnd, hm⟩ := h
    refine ⟨by simpa [setS] using hnd, ?_⟩
    intro j hj
    have hj' : j ∈ e.pending_send := by simpa [setS] using hj
    obtain ⟨h1, h2, h3⟩ := hm j hj'
    by_cases hjk : j = k
    · subst hjk
      have hself : getS { setS e j { getS e j with is_pending_send_capacity := true } with
                          pending_capacity := e.pending_capacity ++ [j] } j
          = { getS e j with is_pending_send_capacity := true } :=
        getS_setS_self e j _ h1
      rw [hself]
      exact ⟨by simpa [setS] using h1, h2, h3⟩
    · have hne : getS { setS e k { getS e k with is_pending_send_capacity := true } with
                        pending_capacity := e.pending_capacity ++ [k] } j = getS e j :=
        getS_setS_ne e k j _ (fun hh => hjk hh.symm)
      rw [hne]
      exact ⟨by simpa [setS] using h1, h2, h3⟩

theorem schedInvX_tryAssign (k : Nat) (e : Engine) (h : SchedInvX k e) :
    SchedInvX k (tryAssignCapacity e k) := by
  by_cases hk : k < e.streams.length
  · simp only [tryAssignCapacity]
    split
    · exact h
    · have h1 : ∀ assign : Int,
          SchedInvX k { setS e k ((getS e k).assign_capacity assign) with
                        flow := (setS e k ((getS e k).assign_capacity assign)).flow.claim_capacity assign } := by
        intro assign
        exact schedInvX_setS k e k _ h (fun hmem => ⟨rfl, fun hh => absurd rfl hh⟩)
      have hlenCap : ∀ (x : Engine) (j : Nat),
          (pushPendingCapacity x j).streams.length = x.streams.length := by
        intro x j
        simp only [pushPendingCapacity]
        split
        · rfl
        · simp [setS]
      split <;> split <;> split
      · exact schedInvX_pushPendingSend_self k _
          (schedInvX_pushPendingCapacity k _ k (h1 _))
          (by rw [hlenCap]; simpa [setS] using hk)
      · exact schedInvX_pushPendingCapacity k _ k (h1 _)
      · exact schedInvX_pushPendingSend_self k _ (h1 _) (by simpa [setS] using hk)
      · exact h1 _
      · exact schedInvX_pushPendingSend_self k _
          (schedInvX_pushPendingCapacity k _ k h) (by rw [hlenCap]; exact hk)
      · exact schedInvX_pushPendingCapacity k _ k h
      · exact schedInvX_pushPendingSend_self k _ h hk
      · exact h
  · rw [tryAssignCapacity_of_ge e k (le_of_not_lt hk)]
    exact h

theorem schedInvX_upgrade (k : Nat) (e : Engine) (s : HStream)
    (h : SchedInvX k e)
    (hks : k ∈ e.pending_send → s.is_pending_send = (getS e k).is_pending_send)
    (hd : s.pending_send ≠ []) :
    SchedInv (setS e k s) := by
  obtain ⟨hnd, hm⟩ := h
  refine ⟨by simpa [setS] using hnd, ?_⟩
  intro j hj
  have hj' : j ∈ e.pending_send := by simpa [setS] using hj
  obtain ⟨h1, h2, h3⟩ := hm j hj'
  by_cases hjk : j = k
  · subst hjk
    rw [getS_setS_self e j s h1]
    exact ⟨by simpa [setS] using h1, by rw [hks hj']; exact h2, hd⟩
  · rw [getS_setS_ne e k j s (fun hh => hjk hh.symm)]
    exact ⟨by simpa [setS] using h1, h2, h3 hjk⟩

theorem tryAssign_len (e : Engine) (k : Nat) :
    (tryAssignCapacity e k).streams.length = e.streams.length := by
  have hlenPS : ∀ (x : Engine) (j : Nat),
      (pushPendingSend x j).streams.length = x.streams.length := by
    intro x j
    simp only [pushPendingSend]
    split
    · rfl
    · simp [setS]
  have hlenPC : ∀ (x : Engine) (j : Nat),
      (pushPendingCapacity x j).streams.length = x.streams.length := by
    intro x j
    simp only [pushPendingCapacity]
    split
    · rfl
    · simp [setS]
  simp only [tryAssignCapacity]
  split
  · rfl
  · split <;> split <;> split <;> simp [hlenPS, hlenPC, setS]

theorem tryAssign_state (e : Engine) (k j : Nat) :
    (getS (tryAssignCapacity e k) j).state = (getS e j).state :=
  ((tryAssignCapacity_props e k).2.2 j).1

theorem tryAssign_deque (e : Engine) (k j : Nat) :
    (getS (tryAssignCapacity e k) j).pending_send = (getS e j).pending_send :=
  ((tryAssignCapacity_props e k).2.2 j).2

theorem send_close_of_streaming (st : StreamState)
    (h : st.is_send_streaming = true) : ∃ st2, st.send_close = .ok st2 := by
  cases st <;> simp [StreamState.is_send_streaming] at h <;> exact ⟨_, rfl⟩

theorem schedInv_sendData_queue (e' : Engine) (k : Nat) (st2 : StreamState)
    (f : HFrame) (hX : SchedInvX k e') (hk : k < e'.streams.length) :
    SchedInv (queueFrame f k (setS e' k { getS e' k with state := st2 })) := by
  have hXc : SchedInvX k (setS e' k { getS e' k with state := st2 }) :=
    schedInvX_setS k e' k _ hX (fun _ => ⟨rfl, fun hh => absurd rfl hh⟩)
  unfold queueFrame
  apply schedInv_pushPendingSend
  · apply schedInvX_upgrade k _ _ hXc
    · intro hmem
      rfl
    · simp
  · simpa [setS] using hk
  · rw [getS_setS_self]
    · simp
    · simpa [setS] using hk

theorem schedInv_sendData_buffer (e' : Engine) (k : Nat) (st2 : StreamState)
    (f : HFrame) (hX : SchedInvX k e') (hk : k < e'.streams.length) :
    SchedInv (setS (setS e' k { getS e' k with state := st2 }) k
      { state := st2,
        send_flow := (getS e' k).send_flow,
        requested_send_capacity := (getS e' k).requested_send_capacity,
        buffered_send_data := (getS e' k).buffered_send_data,
        pending_send := (getS e' k).pending_send ++ [f],
        is_pending_send := (getS e' k).is_pending_send,
        is_pending_send_capacity := (getS e' k).is_pending_send_capacity,
        send_capacity_inc := (getS e' k).send_capacity_inc }) := by
  have hXc : SchedInvX k (setS e' k { getS e' k with state := st2 }) :=
    schedInvX_setS k e' k _ hX (fun _ => ⟨rfl, fun hh => absurd rfl hh⟩)
  apply schedInvX_upgrade k _ _ hXc
  · intro hmem
    rw [getS_setS_self e' k _ hk]
  · simp

theorem schedInv_sendData (e : Engine) (k : Nat) (sz : Nat) (eos : Bool)
    (h : SchedInv e) : SchedInv (sendData e k sz eos).2 := by
  simp only [sendData]
  split
  · exact h
  split
  · split
    · exact h
    · exact h
  · rename_i hstr
    have hstream : (getS e k).state.is_send_streaming = true := not_not.mp hstr
    have hk : k < e.streams.length := by
      by_contra hk2
      rw [getS_of_ge e k (le_of_not_lt hk2)] at hstream
      simp [HStream.empty, StreamState.is_send_streaming] at hstream
    by_cases hreq : (getS e k).requested_send_capacity
        < (getS e k).buffered_send_data + (sz : Int)
    · rw [if_pos hreq]
      have hX1 : SchedInvX k (setS e k
          { getS e k with
            buffered_send_data := (getS e k).buffered_send_data + (sz : Int) }) :=
        schedInvX_setS k e k _ (schedInv_to_X k e h)
          (fun _ => ⟨rfl, fun hh => absurd rfl hh⟩)
      have hX2 : SchedInvX k (setS (setS e k
          { getS e k with
            buffered_send_data := (getS e k).buffered_send_data + (sz : Int) }) k
          { getS e k with
            requested_send_capacity := (getS e k).buffered_send_data + (sz : Int),
            buffered_send_data := (getS e k).buffered_send_data + (sz : Int) }) := by
        apply schedInvX_setS k _ k _ hX1
        intro hmem
        refine ⟨?_, fun hh => absurd rfl hh⟩
        rw [getS_setS_self e k _ hk]
      have hXb : SchedInvX k (tryAssignCapacity (setS (setS e k
          { getS e k with
            buffered_send_data := (getS e k).buffered_send_data + (sz : Int) }) k
          { getS e k with
            requested_send_capacity := (getS e k).buffered_send_data + (sz : Int),
            buffered_send_data := (getS e k).buffered_send_data + (sz : Int) }) k) :=
        schedInvX_tryAssign k _ hX2
      have hkb : k < (tryAssignCapacity (setS (setS e k
          { getS e k with
            buffered_send_data := (getS e k).buffered_send_data + (sz : Int) }) k
          { getS e k with
            requested_send_capacity := (getS e k).buffered_send_data + (sz : Int),
            buffered_send_data := (getS e k).buffered_send_data + (sz : Int) }) k).streams.length := by
        rw [tryAssign_len]
        simpa [setS] using hk
      split
      · rename_i u herr
        exfalso
        cases heos : eos with
        | false =>
          rw [heos] at herr
          simp at herr
        | true =>
          rw [heos] at herr
          rw [if_pos rfl] at herr
          rw [tryAssign_state] at herr
          rw [getS_setS_self _ k _ (by simpa [setS] using hk)] at herr
          dsimp only at herr
          obtain ⟨st2p, hokp⟩ := send_close_of_streaming _ hstream
          rw [hokp] at herr
          cases herr
      · rename_i st2 hok
        split
        · exact schedInv_sendData_queue _ k st2 (.Data sz eos) hXb hkb
        · exact schedInv_sendData_buffer _ k st2 (.Data sz eos) hXb hkb
    · rw [if_neg hreq]
      have hXb : SchedInvX k (setS e k
          { getS e k with
            buffered_send_data := (getS e k).buffered_send_data + (sz : Int) }) :=
        schedInvX_setS k e k _ (schedInv_to_X k e h)
          (fun _ => ⟨rfl, fun hh => absurd rfl hh⟩)
      have hkb : k < (setS e k
          { getS e k with
            buffered_send_data := (getS e k).buffered_send_data + (sz : Int) }).streams.length := by
        simpa [setS] using hk
      split
      · rename_i u herr
        exfalso
        cases heos : eos with
        | false =>
          rw [heos] at herr
          simp at herr
        | true =>
          rw [heos] at herr
          rw [if_pos rfl] at herr
          rw [getS_setS_self e k _ hk] at herr
          dsimp only at herr
          obtain ⟨st2p, hokp⟩ := send_close_of_streaming _ hstream
          rw [hokp] at herr
          cases herr
      · rename_i st2 hok
        split
        · exact schedInv_sendData_queue _ k st2 (.Data sz eos) hXb hkb
        · exact schedInv_sendData_buffer _ k st2 (.Data sz eos) hXb hkb

/-- C6 counterexample: in EC6 the scheduled stream's head frame is DATA of
size 1 > 0, but its stream-level available capacity is 0, so pop_frame emits
nothing (the frame is pushed back and the loop moves on) — refuting the
claim's unconditional "for every DATA frame ... pop_frame emits a fragment
of length min(sz, max_frame_len, available)", which would here be a
zero-length fragment rather than no frame. -/
theorem c6_zero_capacity_data_not_emitted :
    EC6.pending_send = [0] ∧
    (getS EC6 0).pending_send = [.Data 1 false] ∧
    (getS EC6 0).send_flow.available = 0 ∧
    (popFrame 16384 EC6).map Prod.fst = .ok none := by
  refine ⟨rfl, rfl, rfl, ?_⟩
  rfl

/-- C6 witness: the amended emission law instantiated on EC0 (head DATA of
size 5, END_STREAM set, stream available 7, max frame length 3): a 3-byte
fragment is emitted with END_STREAM cleared and EOS remembered, stream
available drops 7 → 4, connection available is unchanged and its window
shrinks 100 → 97. -/
theorem c6_pop_frame_data_emission_witness :
    ∃ e2, popFrame 3 EC0
        = .ok (some (.Data { sz := 5, take := 3, end_stream := false,
                             eos := true, key := 0 }), e2)
      ∧ (getS e2 0).send_flow.available = 4
      ∧ e2.flow.available = EC0.flow.available
      ∧ e2.flow.window_size = 97 := by
  obtain ⟨e2, h1, h2, h3, h4, h5⟩ :=
    c6_pop_frame_data_emission EC0 0 [] 5 true [] 3 rfl rfl (by decide) (by decide)
  refine ⟨e2, h1, ?_, h4, ?_⟩
  · rw [h2]; decide
  · rw [h5]; decide

theorem queueFrame_getS (f : HFrame) (k : Nat) (x : Engine)
    (hk : k < x.streams.length) :
    (getS (queueFrame f k x) k).state = (getS x k).state ∧
    (getS (queueFrame f k x) k).pending_send
      = (getS x k).pending_send ++ [f] := by
  simp only [queueFrame]
  obtain ⟨h1, h2⟩ := pushPendingSend_shape
      (setS x k { getS x k with pending_send := (getS x k).pending_send ++ [f] }) k k
  rw [h1, h2, getS_setS_self x k _ hk]
  exact ⟨rfl, rfl⟩

theorem queueFrame_setS_state (f : HFrame) (k : Nat) (y : Engine) (s : HStream)
    (hky : k < y.streams.length) :
    (getS (queueFrame f k (setS y k s)) k).state = s.state := by
  rw [(queueFrame_getS f k (setS y k s) (by simpa [setS] using hky)).1,
      getS_setS_self y k s hky]

theorem queueFrame_setS_deque (f : HFrame) (k : Nat) (y : Engine) (s : HStream)
    (hky : k < y.streams.length) :
    (getS (queueFrame f k (setS y k s)) k).pending_send
      = s.pending_send ++ [f] := by
  rw [(queueFrame_getS f k (setS y k s) (by simpa [setS] using hky)).2,
      getS_setS_self y k s hky]

theorem clearQueue_getS (k : Nat) (x : Engine) (hk : k < x.streams.length) :
    getS (clearQueue k x) k = { getS x k with pending_send := [] } := by
  simp only [clearQueue]
  exact getS_setS_self x k _ hk

theorem clearQueue_len (k : Nat) (x : Engine) :
    (clearQueue k x).streams.length = x.streams.length := by
  simp [clearQueue, setS]

theorem sendReset_noop_reset (r : Reason) (k : Nat) (x : Engine)
    (h : (getS x k).state.is_reset = true) : sendReset r k x = x := by
  simp only [sendReset]
  rw [if_pos h]

theorem sendReset_noop_closed (r : Reason) (k : Nat) (x : Engine)
    (h1 : (getS x k).state.is_reset = false)
    (h2 : (getS x k).state.is_closed = true)
    (h3 : (getS x k).pending_send = []) : sendReset r k x = x := by
  simp only [sendReset]
  rw [if_neg (by rw [h1]; simp), if_pos ⟨h2, by rw [h3]; rfl⟩]

theorem sendReset_effect (r : Reason) (k : Nat) (e : Engine)
    (hk : k < e.streams.length)
    (h1 : (getS e k).state.is_reset = false)
    (h2 : ¬((getS e k).state.is_closed = true ∧
            (getS e k).pending_send.isEmpty = true)) :
    (getS (sendReset r k e) k).state = .Reset r ∧
    (getS (sendReset r k e) k).pending_send = [.Reset r] := by
  simp only [sendReset]
  rw [if_neg (by rw [h1]; simp), if_neg h2]
  obtain ⟨hs, hd⟩ := (assignConnectionCapacity_props _ _).2.2 k
  rw [hs, hd]
  rw [queueFrame_setS_state, queueFrame_setS_deque]
  · dsimp only
    rw [clearQueue_getS k _ (by simpa [setS] using hk)]
    dsimp only
    rw [getS_setS_self e k _ hk]
    exact ⟨rfl, rfl⟩
  · rw [clearQueue_len]
    simpa [setS] using hk
  · rw [clearQueue_len]
    simpa [setS] using hk

/-- C5: send_reset is idempotent — a second call is always a no-op engine-wise
(for a live stream key), the call is a no-op when the stream is already Reset
or Closed with an empty frame deque, and otherwise it sets the state to
Reset, leaves exactly the one freshly queued RST_STREAM in the deque, and
conserves the reclaimed capacity into the connection pool (the stream's
available capacity is claimed back and re-assigned to the connection, so the
total assigned-plus-connection available is unchanged); consequently two
consecutive calls leave at most one RST_STREAM buffered. -/
theorem c5_send_reset_idempotent (r1 r2 : Reason) (k : Nat) (e : Engine)
    (hk : k < e.streams.length) :
    sendReset r2 k (sendReset r1 k e) = sendReset r1 k e ∧
    ((getS e k).state.is_reset = true → sendReset r1 k e = e) ∧
    ((getS e k).state.is_closed = true → (getS e k).pending_send = [] →
        sendReset r1 k e = e) ∧
    ((getS e k).state.is_reset = false →
      ¬((getS e k).state.is_closed = true ∧
        (getS e k).pending_send.isEmpty = true) →
        (getS (sendReset r1 k e) k).state = .Reset r1 ∧
        (getS (sendReset r1 k e) k).pending_send = [.Reset r1] ∧
        sumAvail (sendReset r1 k e) + (sendReset r1 k e).flow.available
          = sumAvail e + e.flow.available) ∧
    countResets (getS (sendReset r2 k (sendReset r1 k e)) k).pending_send
      ≤ max (countResets (getS e k).pending_send) 1 := by
  have hidem : sendReset r2 k (sendReset r1 k e) = sendReset r1 k e := by
    by_cases hr : (getS e k).state.is_reset = true
    · rw [sendReset_noop_reset r1 k e hr, sendReset_noop_reset r2 k e hr]
    · have hr' : (getS e k).state.is_reset = false := by
        revert hr
        cases (getS e k).state.is_reset <;> simp
      by_cases hc : (getS e k).state.is_closed = true ∧
          (getS e k).pending_send.isEmpty = true
      · have h0 := sendReset_noop_closed r1 k e hr' hc.1
            (List.isEmpty_iff_eq_nil.mp hc.2)
        rw [h0, sendReset_noop_closed r2 k e hr' hc.1
            (List.isEmpty_iff_eq_nil.mp hc.2)]
      · obtain ⟨hst, -⟩ := sendReset_effect r1 k e hk hr' hc
        apply sendReset_noop_reset r2 k
        rw [hst]
        rfl
  refine ⟨hidem, fun hr => sendReset_noop_reset r1 k e hr, ?_, ?_, ?_⟩
  · intro hcl hdq
    by_cases hr : (getS e k).state.is_reset = true
    · exact sendReset_noop_reset r1 k e hr
    · exact sendReset_noop_closed r1 k e
        (by revert hr; cases (getS e k).state.is_reset <;> simp) hcl hdq
  · intro hr hc
    obtain ⟨hst, hdq⟩ := sendReset_effect r1 k e hk hr hc
    exact ⟨hst, hdq, (sendReset_flow_conserve r1 k e).1⟩
  · rw [hidem]
    by_cases hr : (getS e k).state.is_reset = true
    · rw [sendReset_noop_reset r1 k e hr]
      exact le_max_left _ _
    · have hr' : (getS e k).state.is_reset = false := by
        revert hr
        cases (getS e k).state.is_reset <;> simp
      by_cases hc : (getS e k).state.is_closed = true ∧
          (getS e k).pending_send.isEmpty = true
      · rw [sendReset_noop_closed r1 k e hr' hc.1
            (List.isEmpty_iff_eq_nil.mp hc.2)]
        exact le_max_left _ _
      · obtain ⟨-, hdq⟩ := sendReset_effect r1 k e hk hr' hc
        rw [hdq]
        exact le_max_right _ _

/-- C5 witness: on the concrete engine EC7 (one Open stream) a first
send_reset moves the stream to Reset with exactly the RST_STREAM queued, and
a second call with a different reason changes nothing. -/
theorem c5_send_reset_idempotent_witness :
    sendReset .ProtocolError 0 (sendReset .Cancel 0 EC7)
        = sendReset .Cancel 0 EC7 ∧
    (getS (sendReset .Cancel 0 EC7) 0).state = .Reset .Cancel ∧
    (getS (sendReset .Cancel 0 EC7) 0).pending_send = [.Reset .Cancel] := by
  obtain ⟨h1, -, -, h4, -⟩ :=
    c5_send_reset_idempotent .Cancel .ProtocolError 0 EC7 (by decide)
  obtain ⟨hs, hd, -⟩ := h4 (by decide) (by decide)
  exact ⟨h1, hs, hd⟩

theorem links_congr (s s' : QStore) : ∀ l : List Nat,
    (∀ j ∈ l, (s' j).next = (s j).next) → links s l → links s' l
  | [] => fun _ _ => trivial
  | [k] => fun hag h => by
      simp only [links] at h ⊢
      rw [hag k (List.mem_singleton.mpr rfl)]
      exact h
  | k :: k2 :: rest => fun hag h => by
      simp only [links] at h ⊢
      refine ⟨?_, links_congr s s' (k2 :: rest)
          (fun j hj => hag j (List.mem_cons_of_mem k hj)) h.2⟩
      rw [hag k (List.mem_cons_self k (k2 :: rest))]
      exact h.1

theorem mem_reach (s : QStore) : ∀ (rest : List Nat) (a k : Nat),
    links s (a :: rest) → k ∈ a :: rest → ∃ fuel, reachN s fuel a k
  | [], a, k => fun _ hm => by
      have hka : k = a := by simpa using hm
      exact ⟨1, Or.inl hka.symm⟩
  | b :: rest, a, k => fun hl hm => by
      rcases List.mem_cons.mp hm with hk | hm2
      · exact ⟨1, Or.inl hk.symm⟩
      · obtain ⟨f, hf⟩ := mem_reach s rest b k hl.2 hm2
        exact ⟨f + 1, Or.inr ⟨b, hl.1, hf⟩⟩

theorem reach_mem (s : QStore) : ∀ (fuel : Nat) (a : Nat) (rest : List Nat) (k : Nat),
    links s (a :: rest) → reachN s fuel a k → k ∈ a :: rest
  | 0, a, rest, k => fun _ hr => by
      simp only [reachN] at hr
  | fuel + 1, a, rest, k => fun hl hr => by
      simp only [reachN] at hr
      rcases hr with heq | ⟨c2, hnext, hr2⟩
      · subst heq
        exact List.mem_cons_self a rest
      · cases rest with
        | nil =>
          have hn : (s a).next = none := hl
          rw [hn] at hnext
          cases hnext
        | cons b rest2 =>
          have hab : (s a).next = some b := hl.1
          rw [hab] at hnext
          injection hnext with hbc
          subst hbc
          exact List.mem_cons_of_mem a (reach_mem s fuel b rest2 k hl.2 hr2)

theorem links_snoc (s' s : QStore) (k : Nat) : ∀ (a : Nat) (rest : List Nat),
    (a :: rest).Nodup →
    links s (a :: rest) →
    (∀ j ∈ a :: rest, j ≠ (a :: rest).getLast (List.cons_ne_nil a rest) →
      (s' j).next = (s j).next) →
    (s' ((a :: rest).getLast (List.cons_ne_nil a rest))).next = some k →
    (s' k).next = none →
    links s' (a :: rest ++ [k])
  | a, [] => fun _ _ _ h3 h4 => by
      simp only [links]
      exact ⟨h3, h4⟩
  | a, b :: rest2 => fun hnd hl hag h3 h4 => by
      have hgl : (a :: b :: rest2).getLast (List.cons_ne_nil a (b :: rest2))
          = (b :: rest2).getLast (List.cons_ne_nil b rest2) :=
        List.getLast_cons (List.cons_ne_nil b rest2)
      have hamem : a ∉ b :: rest2 := (List.nodup_cons.mp hnd).1
      refine ⟨?_, links_snoc s' s k b rest2 (List.nodup_cons.mp hnd).2 hl.2
          (fun j hj hjt => hag j (List.mem_cons_of_mem a hj) (by rw [hgl]; exact hjt))
          (by rw [hgl] at h3; exact h3) h4⟩
      rw [hag a (List.mem_cons_self a (b :: rest2))
          (fun hh => hamem (by rw [hgl] at hh; exact hh ▸ List.getLast_mem (List.cons_ne_nil b rest2)))]
      exact hl.1

theorem push_qinv (q : IQueue) (s : QStore) (l : List Nat) (k : Nat)
    (h : QInv q s l) (hk : (s k).queued = false) :
    (IQueue.push q s k).1 = true ∧
    QInv (IQueue.push q s k).2.1 (IQueue.push q s k).2.2 (l ++ [k]) := by
  obtain ⟨hnd, hflag, hlinks, hout, hidx⟩ := h
  have hknotin : k ∉ l := fun hm => by
    rw [(hflag k).mpr hm] at hk
    cases hk
  simp only [IQueue.push]
  rw [if_neg (by rw [hk]; simp)]
  cases l with
  | nil =>
    dsimp only at hidx
    rw [hidx]
    dsimp only
    refine ⟨rfl, List.nodup_singleton k, ?_, ?_, ?_, ?_⟩
    · intro j
      by_cases hj : j = k
      · subst hj
        simp [updQ]
      · simp only [updQ, if_neg hj]
        rw [hflag j]
        simp [hj]
    · simp only [List.nil_append, links, updQ, if_pos rfl]
      exact hout k (by simp)
    · intro j hj
      have hj2 : j ≠ k := by simpa using hj
      simp only [updQ, if_neg hj2]
      exact hout j (by simp)
    · rfl
  | cons a rest =>
    dsimp only at hidx
    rw [hidx]
    dsimp only
    have htmem : (a :: rest).getLast (List.cons_ne_nil a rest) ∈ a :: rest :=
      List.getLast_mem _
    have hkt : k ≠ (a :: rest).getLast (List.cons_ne_nil a rest) :=
      fun hh => hknotin (hh ▸ htmem)
    refine ⟨rfl, ?_, ?_, ?_, ?_, ?_⟩
    · rw [List.nodup_append]
      exact ⟨hnd, List.nodup_singleton k,
        fun x hx hx2 => hknotin ((List.mem_singleton.mp hx2) ▸ hx)⟩
    · intro j
      have hq2 : ((updQ (updQ s k { s k with queued := true })
            ((a :: rest).getLast (List.cons_ne_nil a rest))
            { updQ s k { s k with queued := true }
                ((a :: rest).getLast (List.cons_ne_nil a rest)) with
              next := some k }) j).queued
          = ((updQ s k { s k with queued := true }) j).queued := by
        by_cases hjt : j = (a :: rest).getLast (List.cons_ne_nil a rest)
        · subst hjt
          simp [updQ]
        · simp [updQ, if_neg hjt]
      rw [hq2]
      by_cases hj : j = k
      · subst hj
        simp only [updQ, if_pos rfl]
        simp
      · simp only [updQ, if_neg hj]
        rw [hflag j]
        simp [hj]
    · apply links_snoc _ s k a rest hnd hlinks
      · intro j hj hjt
        have hjk : j ≠ k := fun hh => hknotin (hh ▸ hj)
        simp [updQ, if_neg hjt, if_neg hjk]
      · simp [updQ]
      · simp only [updQ, if_neg hkt, if_pos rfl]
        exact hout k hknotin
    · intro j hj
      have hjk : j ≠ k := fun hh => hj (by rw [hh]; simp)
      have hjl : j ∉ a :: rest := fun hh => hj (List.mem_append_left _ hh)
      have hjt : j ≠ (a :: rest).getLast (List.cons_ne_nil a rest) :=
        fun hh => hjl (hh ▸ htmem)
      simp only [updQ, if_neg hjt, if_neg hjk]
      exact hout j hjl
    · have hlast : (a :: (rest ++ [k])).getLast (List.cons_ne_nil a (rest ++ [k]))
          = k := List.getLast_append_singleton (a := k) (a :: rest)
      simp only [List.cons_append]
      exact congrArg some (congrArg (Prod.mk a) hlast.symm)

theorem pop_qinv (q : IQueue) (s : QStore) (l : List Nat) (h : QInv q s l) :
    ∃ r, IQueue.pop q s = .ok r ∧ r.1 = l.head? ∧ QInv r.2.1 r.2.2 l.tail := by
  obtain ⟨hnd, hflag, hlinks, hout, hidx⟩ := h
  cases l with
  | nil =>
    dsimp only at hidx
    refine ⟨(none, q, s), ?_, rfl, hnd, hflag, hlinks, hout, hidx⟩
    simp only [IQueue.pop]
    rw [hidx]
  | cons a rest =>
    dsimp only at hidx
    cases rest with
    | nil =>
      have hnexta : (s a).next = none := hlinks
      refine ⟨(some a, ⟨none⟩, updQ s a { s a with queued := false }),
          ?_, rfl, List.nodup_nil, ?_, trivial, ?_, rfl⟩
      · simp only [IQueue.pop]
        rw [hidx]
        dsimp only
        rw [if_pos (show a = ([a] : List Nat).getLast (List.cons_ne_nil a []) from rfl),
            if_neg (by rw [hnexta]; simp)]
      · intro j
        by_cases hj : j = a
        · subst hj
          simp [updQ]
        · simp only [updQ, if_neg hj]
          rw [hflag j]
          simp [hj]
      · intro j hj
        by_cases hj2 : j = a
        · subst hj2
          simp only [updQ, if_pos rfl]
          exact hnexta
        · simp only [updQ, if_neg hj2]
          exact hout j (by simp [hj2])
    | cons b rest2 =>
      have hab : (s a).next = some b := hlinks.1
      have hanotin : a ∉ b :: rest2 := (List.nodup_cons.mp hnd).1
      have htmem : (a :: b :: rest2).getLast (List.cons_ne_nil a (b :: rest2))
          ∈ b :: rest2 := by
        rw [List.getLast_cons (List.cons_ne_nil b rest2)]
        exact List.getLast_mem _
      have hat : ¬(a = (a :: b :: rest2).getLast (List.cons_ne_nil a (b :: rest2))) :=
        fun hh => hanotin (hh ▸ htmem)
      refine ⟨(some a, ⟨some (b, (a :: b :: rest2).getLast
            (List.cons_ne_nil a (b :: rest2)))⟩,
          updQ s a { next := none, queued := false }),
          ?_, rfl, (List.nodup_cons.mp hnd).2, ?_, ?_, ?_, ?_⟩
      · simp only [IQueue.pop]
        rw [hidx]
        dsimp only
        rw [if_neg hat, hab]
      · intro j
        by_cases hj : j = a
        · subst hj
          simp only [updQ, if_pos rfl]
          simp [hanotin]
        · simp only [updQ, if_neg hj]
          rw [hflag j]
          simp [hj]
      · apply links_congr s _ (b :: rest2) ?_ hlinks.2
        intro j hj
        have hja : j ≠ a := fun hh => hanotin (hh ▸ hj)
        simp [updQ, if_neg hja]
      · intro j hj
        by_cases hj2 : j = a
        · subst hj2
          simp [updQ]
        · simp only [updQ, if_neg hj2]
          apply hout j
          intro hm
          rcases List.mem_cons.mp hm with h1 | h2
          · exact hj2 h1
          · exact hj h2
      · simp only [List.tail_cons]
        rw [List.getLast_cons (List.cons_ne_nil b rest2)]

/-- C8: for a queue satisfying its representation invariant (l its contents),
a stream's is-queued flag is true exactly when the stream is reachable from
the queue's head along next-links; push of an already-queued stream is a
no-op returning false; every stream occurs at most once in the queue; push of
an unqueued stream returns true and re-establishes the invariant with the
stream appended; and pop never hits its assert/unwrap panics, returning the
head and re-establishing the invariant on the tail.  (Each of the four
queues — pending_send, pending_send_capacity, pending_accept,
pending_window_update — has its own next/queued field pair, so one stream may
sit in several queues at once; the model covers any one such pair.) -/
theorem c8_queued_flag_iff_reachable (q : IQueue) (s : QStore) (l : List Nat)
    (h : QInv q s l) :
    (∀ k, (s k).queued = true ↔ ReachesQ q s k) ∧
    (∀ k, l.count k ≤ 1) ∧
    (∀ k, (s k).queued = true → IQueue.push q s k = (false, q, s)) ∧
    (∀ k, (s k).queued = false →
        (IQueue.push q s k).1 = true ∧
        QInv (IQueue.push q s k).2.1 (IQueue.push q s k).2.2 (l ++ [k])) ∧
    (∃ r, IQueue.pop q s = .ok r ∧ r.1 = l.head? ∧ QInv r.2.1 r.2.2 l.tail) := by
  obtain ⟨hnd, hflag, hlinks, hout, hidx⟩ := h
  refine ⟨?_, ?_, ?_,
      fun k hk => push_qinv q s l k ⟨hnd, hflag, hlinks, hout, hidx⟩ hk,
      pop_qinv q s l ⟨hnd, hflag, hlinks, hout, hidx⟩⟩
  · intro k
    rw [hflag k]
    constructor
    · intro hmem
      cases l with
      | nil => cases hmem
      | cons a rest =>
        dsimp only at hidx
        obtain ⟨f, hf⟩ := mem_reach s rest a k hlinks hmem
        exact ⟨a, _, f, hidx, hf⟩
    · rintro ⟨hh, tt, f, hq, hr⟩
      cases l with
      | nil =>
        dsimp only at hidx
        rw [hidx] at hq
        cases hq
      | cons a rest =>
        dsimp only at hidx
        rw [hidx] at hq
        injection hq with hq2
        have hha : hh = a := (congrArg Prod.fst hq2).symm
        subst hha
        exact reach_mem s f hh rest k hlinks hr
  · exact fun k => List.nodup_iff_count_le_one.mp hnd k
  · intro k hk
    simp only [IQueue.push]
    rw [if_pos hk]

/-- C8 witness: pushing key 5 onto an empty queue over an all-unqueued store
returns true and yields a valid one-element queue. -/
theorem c8_queued_flag_iff_reachable_witness :
    (IQueue.push ⟨none⟩ (fun _ => ⟨none, false⟩) 5).1 = true ∧
    QInv (IQueue.push ⟨none⟩ (fun _ => ⟨none, false⟩) 5).2.1
         (IQueue.push ⟨none⟩ (fun _ => ⟨none, false⟩) 5).2.2 [5] := by
  have hinv : QInv ⟨none⟩ (fun _ => ⟨none, false⟩) [] :=
    ⟨List.nodup_nil, fun k => by simp, trivial, fun _ _ => rfl, rfl⟩
  exact (c8_queued_flag_iff_reachable _ _ _ hinv).2.2.2.1 5 rfl

/-- C10 (code bug): the claimed invariant — every stream in pending_send has
a non-empty frame deque, so pop_frame's unconditional unwrap never panics —
is false of this snapshot.  buffered_send_data is only ever incremented
(send_data), never decremented by pop_frame, so after a fully emitted DATA
frame the stream has an empty deque with buffered_send_data still positive;
a stream-level WINDOW_UPDATE then runs try_assign_capacity, whose
buffered_send_data > 0 branch schedules the stream (its debug_assert on a
positive available even passes), and the next pop_frame unwraps pop_front of
the empty deque — a panic.  Concretely from EC0: pop_frame emits the whole
5-byte DATA frame, recv_stream_window_update(10) re-schedules the drained
stream, and pop_frame returns the unwrap panic. -/
theorem c10_pop_frame_unwrap_panics :
    ∃ e1 e2,
      popFrame 16384 EC0
        = .ok (some (.Data { sz := 5, take := 5, end_stream := true,
                             eos := true, key := 0 }), e1) ∧
      (getS e1 0).pending_send = [] ∧
      (getS e1 0).buffered_send_data = 5 ∧
      e1.pending_send = [] ∧
      recvStreamWindowUpdate 10 0 e1 = .ok e2 ∧
      e2.pending_send = [0] ∧
      (getS e2 0).pending_send = [] ∧
      (getS e2 0).send_flow.available > 0 ∧
      popFrame 16384 e2 = .error .unwrapNone := by
  refine ⟨_, _, rfl, rfl, rfl, rfl, rfl, rfl, rfl, by decide, rfl⟩
